import Mathlib

/-!
Verification of the simulation kernel of the CANVAS-QIX territory-capture game.

The definitions below are a shallow embedding of the TypeScript sources:
  * `src/constants` (src/unnamed/part_000): grid dimensions and cell-state codes;
  * `src/utils/gameLogic.ts`: `getIndex`, `getBossReachableArea` (multi-seed BFS
    flood fill, lines 168-212) and `getPointsOnLine` (Bresenham, lines 218-245);
  * `src/components/GameCanvas.tsx` (second, current variant, lines 1307-2854):
    `initGame`'s grid initialisation, `captureArea`, `handleDeath`, and the
    relevant fragments of `update` (combo decay, match timer, player movement and
    trail rasterisation, enemy effective speed, enemy-to-player contact).

Floating-point position values are modelled as rationals (`ℚ`); `Math.floor`
becomes `Int.floor`.  The `Uint8Array` grid is modelled as a total function
`Nat → Nat` together with the explicit bound `totalCells`; every read the source
performs is guarded by the same bounds checks the source performs, and an
out-of-range read of the typed array (which yields `undefined` in JS, a value
distinct from every cell state) is modelled by `Option`-valued access where the
source compares such a read against a state code.
-/

namespace CanvasQix

/-- `GAME_WIDTH` from src/constants. -/
def GAME_WIDTH : Nat := 600

/-- `GAME_HEIGHT` from src/constants. -/
def GAME_HEIGHT : Nat := 450

/-- `STATE_CLEARED` (Claimed) from src/constants. -/
def STATE_CLEARED : Nat := 0

/-- `STATE_MASKED` (Open) from src/constants. -/
def STATE_MASKED : Nat := 1

/-- `STATE_TRAIL` from src/constants. -/
def STATE_TRAIL : Nat := 2

/-- `PLAYER_RADIUS` from src/constants. -/
def PLAYER_RADIUS : ℚ := 4

/-- The number of cells of the flat grid array (`GAME_WIDTH * GAME_HEIGHT`),
i.e. `grid.length` of the `Uint8Array` in the source. -/
def totalCells : Nat := GAME_WIDTH * GAME_HEIGHT

/-- The flat cell grid.  Cell `(x, y)` lives at index `y * GAME_WIDTH + x`;
only indices `< totalCells` correspond to cells of the source's `Uint8Array`. -/
abbrev Grid := Nat → Nat

/-- `getIndex` from src/utils/gameLogic.ts: index of `(x, y)` in the flat array. -/
def getIndex (x y : Nat) : Nat := y * GAME_WIDTH + x

/-- x-coordinate of the cell at flat index `i`. -/
def cellX (i : Nat) : Nat := i % GAME_WIDTH

/-- y-coordinate of the cell at flat index `i`. -/
def cellY (i : Nat) : Nat := i / GAME_WIDTH

/-! ### The Bresenham rasterizer (`getPointsOnLine`, gameLogic.ts lines 218-245)

The source floors its (float) endpoints and then works on integers only; the
embedding takes the already-floored integer endpoints.  The `while (true)` loop
is modelled with explicit fuel; `getPointsOnLine` supplies `dx + dy + 1` units
of fuel, which `lineAux_spec` below proves sufficient. -/

/-- Loop body of `getPointsOnLine`: state is the moving point `(x0, y0)` and the
error term `err`; `x1 y1 dx dy sx sy` are the loop constants of the source. -/
def lineAux (x1 y1 dx dy sx sy : Int) : Nat → Int → Int → Int → List (Int × Int)
  | 0, x0, y0, _ => [(x0, y0)]
  | fuel + 1, x0, y0, err =>
    if x0 = x1 ∧ y0 = y1 then [(x0, y0)]
    else
      let e2 := 2 * err
      let x0n := if e2 > -dy then x0 + sx else x0
      let errx := if e2 > -dy then err - dy else err
      let y0n := if e2 < dx then y0 + sy else y0
      let erry := if e2 < dx then errx + dx else errx
      (x0, y0) :: lineAux x1 y1 dx dy sx sy fuel x0n y0n erry

/-- `getPointsOnLine` from gameLogic.ts on integer (floored) endpoints. -/
def getPointsOnLine (p0 p1 : Int × Int) : List (Int × Int) :=
  let dx := |p1.1 - p0.1|
  let dy := |p1.2 - p0.2|
  let sx : Int := if p0.1 < p1.1 then 1 else -1
  let sy : Int := if p0.2 < p1.2 then 1 else -1
  lineAux p1.1 p1.2 dx dy sx sy (dx + dy + 1).toNat p0.1 p0.2 (dx - dy)

/-- Two integer points are 8-connected neighbours: distinct, and each
coordinate differs by at most one. -/
def adj8 (p q : Int × Int) : Prop :=
  p ≠ q ∧ |q.1 - p.1| ≤ 1 ∧ |q.2 - p.2| ≤ 1

theorem lineAux_ne_nil (x1 y1 dx dy sx sy : Int) (fuel : Nat) (x0 y0 err : Int) :
    lineAux x1 y1 dx dy sx sy fuel x0 y0 err ≠ [] := by
  cases fuel with
  | zero => simp [lineAux]
  | succ n =>
    rw [lineAux]
    split <;> simp

theorem lineAux_head (x1 y1 dx dy sx sy : Int) (fuel : Nat) (x0 y0 err : Int) :
    (lineAux x1 y1 dx dy sx sy fuel x0 y0 err).head? = some (x0, y0) := by
  cases fuel with
  | zero => simp [lineAux]
  | succ n =>
    rw [lineAux]
    split <;> simp

theorem getLast?_cons_of_ne_nil {α : Type} (p : α) {L : List α} (h : L ≠ []) :
    (p :: L).getLast? = L.getLast? := by
  cases L with
  | nil => exact absurd rfl h
  | cons q M => simp [List.getLast?]

theorem lineAux_chain (x1 y1 dx dy sx sy : Int) (hdx : 0 ≤ dx) (hdy : 0 ≤ dy)
    (hsx : sx = 1 ∨ sx = -1) (hsy : sy = 1 ∨ sy = -1) (hpos : 0 < dx ∨ 0 < dy) :
    ∀ (fuel : Nat) (x0 y0 err : Int),
      List.Chain' adj8 (lineAux x1 y1 dx dy sx sy fuel x0 y0 err) := by
  intro fuel
  induction fuel with
  | zero => intro x0 y0 err; simp [lineAux]
  | succ n ih =>
    intro x0 y0 err
    rw [lineAux]
    split
    · simp
    · rw [List.chain'_cons']
      refine ⟨?_, ih _ _ _⟩
      intro q hq
      rw [lineAux_head] at hq
      simp only [Option.mem_def, Option.some.injEq] at hq
      subst hq
      refine ⟨?_, ?_, ?_⟩
      · -- the step moves at least one coordinate: the two points differ
        simp only [ne_eq, Prod.mk.injEq, not_and]
        intro hx hy
        rcases hsx with h1 | h1 <;> rcases hsy with h2 | h2 <;>
          subst h1 <;> subst h2 <;>
          split_ifs at hx hy <;> omega
      · -- the x-coordinate moves by at most one
        simp only
        rcases hsx with h1 | h1 <;> subst h1 <;>
          split_ifs <;> rw [abs_le] <;> omega
      · -- the y-coordinate moves by at most one
        simp only
        rcases hsy with h2 | h2 <;> subst h2 <;>
          split_ifs <;> rw [abs_le] <;> omega

theorem lineAux_last (x1 y1 dx dy sx sy : Int) (hdx : 0 ≤ dx) (hdy : 0 ≤ dy)
    (hsx : sx = 1 ∨ sx = -1) (hsy : sy = 1 ∨ sy = -1) :
    ∀ (fuel : Nat) (a b : Int), 0 ≤ a → a ≤ dx → 0 ≤ b → b ≤ dy →
      |2 * (b * dx - a * dy)| ≤ max dx dy →
      (dx - a) + (dy - b) < (fuel : Int) →
      (lineAux x1 y1 dx dy sx sy fuel (x1 - sx * (dx - a)) (y1 - sy * (dy - b))
          (dx - dy + (b * dx - a * dy))).getLast? = some (x1, y1) := by
  intro fuel
  induction fuel with
  | zero => intro a b ha0 had hb0 hbd _ hfuel; simp at hfuel; omega
  | succ n ih =>
    intro a b ha0 had hb0 hbd hD hfuel
    have hsx2 : sx * sx = 1 := by rcases hsx with h | h <;> subst h <;> ring
    have hsy2 : sy * sy = 1 := by rcases hsy with h | h <;> subst h <;> ring
    have hsxne : sx ≠ 0 := by rcases hsx with h | h <;> subst h <;> omega
    have hsyne : sy ≠ 0 := by rcases hsy with h | h <;> subst h <;> omega
    rw [lineAux]
    by_cases hend : a = dx ∧ b = dy
    · rw [if_pos]
      · simp [hend.1, hend.2]
      · constructor <;> [rw [hend.1]; rw [hend.2]] <;> simp
    · rw [if_neg]
      · -- the loop takes a step; analyse which of the two sub-steps fire
        have hm1 : dx ≤ max dx dy := le_max_left _ _
        have hm2 : dy ≤ max dx dy := le_max_right _ _
        have hm3 : max dx dy = dx ∨ max dx dy = dy := max_choice _ _
        set D : Int := b * dx - a * dy with hDdef
        have habs : -(max dx dy) ≤ 2 * D ∧ 2 * D ≤ max dx dy := abs_le.mp hD
        set e2 : Int := 2 * (dx - dy + D) with he2
        have hfire : e2 > -dy ∨ e2 < dx := by
          by_contra hcon
          push_neg at hcon
          omega
        -- no overshoot in x: when a = dx the x-condition cannot fire
        have hxstop : e2 > -dy → a < dx := by
          intro hcx
          rcases lt_or_eq_of_le had with h | h
          · exact h
          · exfalso
            subst h
            have hblt : b < dy := by rcases lt_or_eq_of_le hbd with h | h; exact h; omega
            have hprod : 0 ≤ a * (dy - 1 - b) :=
              mul_nonneg ha0 (by omega)
            have : D = a * (b - dy) := by rw [hDdef]; ring
            nlinarith
        -- no overshoot in y: when b = dy the y-condition cannot fire
        have hystop : e2 < dx → b < dy := by
          intro hcy
          rcases lt_or_eq_of_le hbd with h | h
          · exact h
          · exfalso
            subst h
            have halt : a < dx := by rcases lt_or_eq_of_le had with h | h; exact h; omega
            have hprod : 0 ≤ b * (dx - 1 - a) :=
              mul_nonneg hb0 (by omega)
            have : D = b * (dx - a) := by rw [hDdef]; ring
            nlinarith
        by_cases hcx : e2 > -dy <;> by_cases hcy : e2 < dx
        · -- both coordinates step
          simp only [if_pos hcx, if_pos hcy]
          rw [getLast?_cons_of_ne_nil _ (lineAux_ne_nil _ _ _ _ _ _ _ _ _ _)]
          have ex : x1 - sx * (dx - a) + sx = x1 - sx * (dx - (a + 1)) := by ring
          have ey : y1 - sy * (dy - b) + sy = y1 - sy * (dy - (b + 1)) := by ring
          have ee : dx - dy + D - dy + dx = dx - dy + ((b + 1) * dx - (a + 1) * dy) := by
            rw [hDdef]; ring
          rw [ex, ey, ee]
          exact ih (a + 1) (b + 1) (by omega) (by have := hxstop hcx; omega)
            (by omega) (by have := hystop hcy; omega)
            (by rw [abs_le]; constructor <;> nlinarith) (by omega)
        · -- only x steps
          simp only [if_pos hcx, if_neg hcy]
          rw [getLast?_cons_of_ne_nil _ (lineAux_ne_nil _ _ _ _ _ _ _ _ _ _)]
          have ex : x1 - sx * (dx - a) + sx = x1 - sx * (dx - (a + 1)) := by ring
          have ee : dx - dy + D - dy = dx - dy + (b * dx - (a + 1) * dy) := by
            rw [hDdef]; ring
          rw [ex, ee]
          exact ih (a + 1) b (by omega) (by have := hxstop hcx; omega) hb0 hbd
            (by rw [abs_le]; constructor <;> nlinarith) (by omega)
        · -- only y steps
          simp only [if_neg hcx, if_pos hcy]
          rw [getLast?_cons_of_ne_nil _ (lineAux_ne_nil _ _ _ _ _ _ _ _ _ _)]
          have ey : y1 - sy * (dy - b) + sy = y1 - sy * (dy - (b + 1)) := by ring
          have ee : dx - dy + D + dx = dx - dy + ((b + 1) * dx - a * dy) := by
            rw [hDdef]; ring
          rw [ey, ee]
          exact ih a (b + 1) ha0 had (by omega) (by have := hystop hcy; omega)
            (by rw [abs_le]; constructor <;> nlinarith) (by omega)
        · exfalso
          rcases hfire with h | h
          · exact hcx h
          · exact hcy h
      · -- the end test translates back through the position invariant
        intro hcon
        apply hend
        obtain ⟨hx, hy⟩ := hcon
        constructor
        · have : sx * (dx - a) = 0 := by omega
          rcases mul_eq_zero.mp this with h | h
          · exact absurd h hsxne
          · omega
        · have : sy * (dy - b) = 0 := by omega
          rcases mul_eq_zero.mp this with h | h
          · exact absurd h hsyne
          · omega

/-- The step decisions of `lineAux` depend only on `dx`, `dy` and `err`; this
function mirrors them on the remaining step counts `u = sx*(x1-x0)` and
`v = sy*(y1-y0)`, so the list length is a function of `(dx, dy, err)` alone. -/
def lineLen (dx dy : Int) : Nat → Int → Int → Int → Nat
  | 0, _, _, _ => 1
  | fuel + 1, u, v, err =>
    if u = 0 ∧ v = 0 then 1
    else
      let e2 := 2 * err
      let un := if e2 > -dy then u - 1 else u
      let errx := if e2 > -dy then err - dy else err
      let vn := if e2 < dx then v - 1 else v
      let erry := if e2 < dx then errx + dx else errx
      1 + lineLen dx dy fuel un vn erry

theorem lineAux_length (x1 y1 dx dy sx sy : Int)
    (hsx : sx = 1 ∨ sx = -1) (hsy : sy = 1 ∨ sy = -1) :
    ∀ (fuel : Nat) (x0 y0 err : Int),
      (lineAux x1 y1 dx dy sx sy fuel x0 y0 err).length
        = lineLen dx dy fuel (sx * (x1 - x0)) (sy * (y1 - y0)) err := by
  intro fuel
  induction fuel with
  | zero => intro x0 y0 err; simp [lineAux, lineLen]
  | succ n ih =>
    intro x0 y0 err
    have hxz : x0 = x1 ↔ sx * (x1 - x0) = 0 := by
      rcases hsx with h | h <;> subst h <;> constructor <;> intro hh <;> omega
    have hyz : y0 = y1 ↔ sy * (y1 - y0) = 0 := by
      rcases hsy with h | h <;> subst h <;> constructor <;> intro hh <;> omega
    rw [lineAux, lineLen]
    by_cases hz : x0 = x1 ∧ y0 = y1
    · rw [if_pos hz, if_pos ⟨hxz.mp hz.1, hyz.mp hz.2⟩]
      simp
    · rw [if_neg hz, if_neg (by rw [hxz, hyz] at hz; exact hz)]
      simp only [List.length_cons]
      rw [ih]
      have hux : ∀ c : Prop, ∀ inst : Decidable c,
          sx * (x1 - (if c then x0 + sx else x0))
            = if c then sx * (x1 - x0) - 1 else sx * (x1 - x0) := by
        intro c inst
        rcases hsx with h | h <;> subst h <;> split <;> ring
      have huy : ∀ c : Prop, ∀ inst : Decidable c,
          sy * (y1 - (if c then y0 + sy else y0))
            = if c then sy * (y1 - y0) - 1 else sy * (y1 - y0) := by
        intro c inst
        rcases hsy with h | h <;> subst h <;> split <;> ring
      rw [hux, huy]
      omega

theorem lineAux_last' (x1 y1 dx dy sx sy : Int) (fuel : Nat) (x0 y0 err : Int)
    (hdx : 0 ≤ dx) (hdy : 0 ≤ dy)
    (hsx : sx = 1 ∨ sx = -1) (hsy : sy = 1 ∨ sy = -1)
    (hx : x0 = x1 - sx * dx) (hy : y0 = y1 - sy * dy) (herr : err = dx - dy)
    (hfuel : dx + dy < (fuel : Int)) :
    (lineAux x1 y1 dx dy sx sy fuel x0 y0 err).getLast? = some (x1, y1) := by
  subst hx; subst hy; subst herr
  have e1 : x1 - sx * dx = x1 - sx * (dx - 0) := by ring
  have e2 : y1 - sy * dy = y1 - sy * (dy - 0) := by ring
  have e3 : dx - dy = dx - dy + ((0 : Int) * dx - 0 * dy) := by ring
  rw [e1, e2, e3]
  exact lineAux_last x1 y1 dx dy sx sy hdx hdy hsx hsy fuel 0 0 le_rfl hdx le_rfl hdy
    (by simpa using le_max_of_le_left hdx) (by omega)

/-- CLAIM C2 — `getPointsOnLine(a, b)` returns a non-empty sequence of integer
points that starts at `a`, ends at `b`, whose consecutive points are distinct
8-connected neighbours, and whose length is invariant under swapping the two
endpoints.  (`getBossReachableArea` and `getPointsOnLine` floor their float
inputs; the embedding takes the already-floored integer endpoints, on which
`Math.floor` is the identity.) -/
theorem claim_C2 (p0 p1 : Int × Int) :
    getPointsOnLine p0 p1 ≠ [] ∧
    (getPointsOnLine p0 p1).head? = some p0 ∧
    (getPointsOnLine p0 p1).getLast? = some p1 ∧
    List.Chain' adj8 (getPointsOnLine p0 p1) ∧
    (getPointsOnLine p0 p1).length = (getPointsOnLine p1 p0).length := by
  obtain ⟨x0, y0⟩ := p0
  obtain ⟨x1, y1⟩ := p1
  have hdx : (0 : Int) ≤ |x1 - x0| := abs_nonneg _
  have hdy : (0 : Int) ≤ |y1 - y0| := abs_nonneg _
  have hsx : (if x0 < x1 then (1 : Int) else -1) = 1 ∨
      (if x0 < x1 then (1 : Int) else -1) = -1 := by split <;> simp
  have hsy : (if y0 < y1 then (1 : Int) else -1) = 1 ∨
      (if y0 < y1 then (1 : Int) else -1) = -1 := by split <;> simp
  have habsx : ∀ u v : Int, |v - u| = (if u < v then (1 : Int) else -1) * (v - u) := by
    intro u v
    rcases lt_or_ge u v with h | h
    · rw [if_pos h, abs_of_pos (by omega), one_mul]
    · rw [if_neg (by omega), abs_of_nonpos (by omega)]; ring
  refine ⟨?_, ?_, ?_, ?_, ?_⟩
  · exact lineAux_ne_nil _ _ _ _ _ _ _ _ _ _
  · exact lineAux_head _ _ _ _ _ _ _ _ _ _
  · -- ends at p1: instantiate the invariant lemma at step counts (0, 0)
    apply lineAux_last' x1 y1 _ _ _ _ _ x0 y0 _ hdx hdy hsx hsy
    · rw [habsx x0 x1]
      rcases hsx with h | h <;> rw [h] <;> ring_nf
    · rw [habsx y0 y1]
      rcases hsy with h | h <;> rw [h] <;> ring_nf
    · rfl
    · simp only
      rw [Int.toNat_of_nonneg (by positivity)]
      omega
  · -- 8-connectedness of consecutive points
    by_cases hz : x0 = x1 ∧ y0 = y1
    · have h1 : |x1 - x0| = 0 := by rw [hz.1]; simp
      have h2 : |y1 - y0| = 0 := by rw [hz.2]; simp
      show List.Chain' adj8 (lineAux x1 y1 (|x1 - x0|) (|y1 - y0|) _ _ _ x0 y0 _)
      rw [h1, h2]
      have : ((0 : Int) + 0 + 1).toNat = 1 := by decide
      rw [this, lineAux, if_pos ⟨hz.1, hz.2⟩]
      simp
    · exact lineAux_chain x1 y1 _ _ _ _ hdx hdy hsx hsy
        (by
          rcases (not_and_or.mp hz) with h | h
          · exact Or.inl (abs_pos.mpr (by omega))
          · exact Or.inr (abs_pos.mpr (by omega)))
        _ _ _ _
  · -- length symmetry under endpoint swap
    show (lineAux x1 y1 _ _ _ _ _ x0 y0 _).length = (lineAux x0 y0 _ _ _ _ _ x1 y1 _).length
    rw [lineAux_length x1 y1 _ _ _ _ hsx hsy, lineAux_length x0 y0 _ _ _ _
      (by split <;> simp) (by split <;> simp)]
    have e1 : |x0 - x1| = |x1 - x0| := abs_sub_comm _ _
    have e2 : |y0 - y1| = |y1 - y0| := abs_sub_comm _ _
    have e3 : (if x0 < x1 then (1 : Int) else -1) * (x1 - x0) = |x1 - x0| :=
      (habsx x0 x1).symm
    have e4 : (if y0 < y1 then (1 : Int) else -1) * (y1 - y0) = |y1 - y0| :=
      (habsx y0 y1).symm
    have e5 : (if x1 < x0 then (1 : Int) else -1) * (x0 - x1) = |x0 - x1| :=
      (habsx x1 x0).symm
    have e6 : (if y1 < y0 then (1 : Int) else -1) * (y0 - y1) = |y0 - y1| :=
      (habsx y1 y0).symm
    rw [e3, e4, e5, e6, e1, e2]

/-! ### The reachability flood fill (`getBossReachableArea`, gameLogic.ts 168-212)

The source BFS keeps a `visited` set and a FIFO `queue`; both the seed loop and
the neighbour loop perform the same "if masked and unvisited, insert and
enqueue" step, factored below as `pushNew`.  The `while (queue.length > 0)`
loop is modelled with explicit fuel; `bfsAux_spec` proves that the fuel
supplied by `getBossReachableArea` lets the loop drain its queue. -/

/-- The neighbour offsets `[-GAME_WIDTH, GAME_WIDTH, -1, 1]` of the BFS. -/
def offsets : List Int := [-(GAME_WIDTH : Int), (GAME_WIDTH : Int), -1, 1]

/-- Neighbour-index computation of the BFS loop body: `neighborIdx = currentIdx
+ offset`, rejected by the same three guards as the source (the array-bounds
check and the two horizontal wrap-around checks). -/
def neighborOK (cur : Nat) (off : Int) : Option Nat :=
  let n : Int := (cur : Int) + off
  if n < 0 ∨ (totalCells : Int) ≤ n then none
  else if off = 1 ∧ n % (GAME_WIDTH : Int) = 0 then none
  else if off = -1 ∧ (n + 1) % (GAME_WIDTH : Int) = 0 then none
  else some n.toNat

/-- The shared visit step of the BFS: if the candidate index reads
`STATE_MASKED` and is unvisited, insert it into `visited` and push it onto the
queue; otherwise leave the state unchanged.  (`none` models a candidate
rejected by a bounds/wrap guard, whose typed-array read in JS would yield
`undefined`, never `STATE_MASKED`.) -/
def pushNew (g : Grid) (acc : Finset Nat × List Nat) (cand : Option Nat) :
    Finset Nat × List Nat :=
  match cand with
  | none => acc
  | some n =>
    if g n = STATE_MASKED ∧ n ∉ acc.1 then (insert n acc.1, acc.2 ++ [n]) else acc

/-- Fold `pushNew` over a list of candidate producers. -/
def pushFold (g : Grid) {α : Type} (f : α → Option Nat)
    (acc : Finset Nat × List Nat) (cs : List α) : Finset Nat × List Nat :=
  cs.foldl (fun a c => pushNew g a (f c)) acc

/-- The BFS `while (queue.length > 0)` loop of `getBossReachableArea`. -/
def bfsAux (g : Grid) : Nat → Finset Nat → List Nat → Finset Nat
  | 0, visited, _ => visited
  | _ + 1, visited, [] => visited
  | fuel + 1, visited, cur :: rest =>
    let s := pushFold g (neighborOK cur) (visited, rest) offsets
    bfsAux g fuel s.1 s.2

/-- Seed candidate of the BFS: `getIndex(floor(p.x), floor(p.y))`, guarded by
the range of the backing `Uint8Array` (an out-of-range read yields `undefined`
in JS and hence never enqueues). -/
def seedCand (p : Int × Int) : Option Nat :=
  let idx : Int := p.2 * (GAME_WIDTH : Int) + p.1
  if 0 ≤ idx ∧ idx < (totalCells : Int) then some idx.toNat else none

/-- The seed loop of `getBossReachableArea`: enqueue every seed whose cell is
currently `STATE_MASKED` and not already visited. -/
def seedInit (g : Grid) (pts : List (Int × Int)) : Finset Nat × List Nat :=
  pushFold g seedCand (∅, []) pts

/-- `getBossReachableArea` from gameLogic.ts (the current multi-seed version,
lines 168-212).  The function only reads the grid: it is a pure function of the
grid snapshot, matching the spec sentence that the call does not mutate the
grid and is deterministic.  The fuel `2 * totalCells + |initial queue|` is an
upper bound on the number of loop iterations, proved sufficient in
`bfsAux_spec`. -/
def getBossReachableArea (g : Grid) (pts : List (Int × Int)) : Finset Nat :=
  let s := seedInit g pts
  bfsAux g (2 * totalCells + s.2.length) s.1 s.2

/-- Coordinate 4-adjacency of two in-range flat indices: same column and rows
differing by one, or same row and columns differing by one.  A step of this
relation never wraps across a row boundary and never leaves the grid. -/
def adj4 (i j : Nat) : Prop :=
  i < totalCells ∧ j < totalCells ∧
    ((cellX i = cellX j ∧ (cellY j = cellY i + 1 ∨ cellY i = cellY j + 1)) ∨
     (cellY i = cellY j ∧ (cellX j = cellX i + 1 ∨ cellX i = cellX j + 1)))

/-- A flood-fill step: move to a 4-adjacent cell that is Open (`STATE_MASKED`). -/
def openStep (g : Grid) (i j : Nat) : Prop := adj4 i j ∧ g j = STATE_MASKED

/-- The flat index of a seed point (already floored), as `getIndex` computes it. -/
def seedIdx (p : Int × Int) : Nat := (p.2 * (GAME_WIDTH : Int) + p.1).toNat

/-- Reachability from some index of the set `S` along Open cells. -/
def ReachFrom (g : Grid) (S : Finset Nat) (i : Nat) : Prop :=
  ∃ s ∈ S, Relation.ReflTransGen (openStep g) s i

theorem pushNew_fst_subset (g : Grid) (acc : Finset Nat × List Nat)
    (cand : Option Nat) : acc.1 ⊆ (pushNew g acc cand).1 := by
  cases cand with
  | none => exact Finset.Subset.refl _
  | some n =>
    rw [pushNew]
    split
    · exact Finset.subset_insert _ _
    · exact Finset.Subset.refl _

theorem pushNew_mem (g : Grid) (acc : Finset Nat × List Nat) (cand : Option Nat)
    (i : Nat) : i ∈ (pushNew g acc cand).1 ↔
      i ∈ acc.1 ∨ (cand = some i ∧ g i = STATE_MASKED) := by
  cases cand with
  | none => simp [pushNew]
  | some n =>
    rw [pushNew]
    split
    · rename_i h
      simp only [Finset.mem_insert, Option.some.injEq]
      constructor
      · rintro (rfl | hi)
        · exact Or.inr ⟨rfl, h.1⟩
        · exact Or.inl hi
      · rintro (hi | ⟨rfl, _⟩)
        · exact Or.inr hi
        · exact Or.inl rfl
    · rename_i h
      rw [not_and_or, not_not] at h
      simp only [Option.some.injEq]
      constructor
      · exact Or.inl
      · rintro (hi | ⟨rfl, hm⟩)
        · exact hi
        · rcases h with h | h
          · exact absurd hm h
          · exact h

theorem pushNew_queue_old (g : Grid) (acc : Finset Nat × List Nat)
    (cand : Option Nat) (i : Nat) (hi : i ∈ acc.2) : i ∈ (pushNew g acc cand).2 := by
  cases cand with
  | none => exact hi
  | some n =>
    rw [pushNew]
    split
    · simp only [List.mem_append]
      exact Or.inl hi
    · exact hi

theorem pushNew_fst_or_queue (g : Grid) (acc : Finset Nat × List Nat)
    (cand : Option Nat) (i : Nat) (hi : i ∈ (pushNew g acc cand).1) :
    i ∈ acc.1 ∨ i ∈ (pushNew g acc cand).2 := by
  cases cand with
  | none => exact Or.inl hi
  | some n =>
    rw [pushNew] at hi ⊢
    split at hi
    · rcases Finset.mem_insert.mp hi with rfl | h
      · rename_i hcond
        rw [if_pos hcond]
        simp
      · exact Or.inl h
    · exact Or.inl hi

theorem pushNew_card (g : Grid) (acc : Finset Nat × List Nat) (cand : Option Nat) :
    ∃ k, (pushNew g acc cand).1.card = acc.1.card + k ∧
      (pushNew g acc cand).2.length = acc.2.length + k := by
  cases cand with
  | none => exact ⟨0, rfl, rfl⟩
  | some n =>
    rw [pushNew]
    split
    · rename_i h
      exact ⟨1, by simp [Finset.card_insert_of_not_mem h.2], by simp⟩
    · exact ⟨0, rfl, rfl⟩

theorem pushFold_fst_subset (g : Grid) {α : Type} (f : α → Option Nat)
    (cs : List α) : ∀ acc, acc.1 ⊆ (pushFold g f acc cs).1 := by
  induction cs with
  | nil => intro acc; exact Finset.Subset.refl _
  | cons c cs ih =>
    intro acc
    exact (pushNew_fst_subset g acc (f c)).trans (ih _)

theorem pushFold_mem (g : Grid) {α : Type} (f : α → Option Nat) (cs : List α) :
    ∀ acc i, i ∈ (pushFold g f acc cs).1 ↔
      i ∈ acc.1 ∨ ∃ c ∈ cs, f c = some i ∧ g i = STATE_MASKED := by
  induction cs with
  | nil => intro acc i; simp [pushFold]
  | cons c cs ih =>
    intro acc i
    show i ∈ (pushFold g f (pushNew g acc (f c)) cs).1 ↔ _
    rw [ih, pushNew_mem]
    simp only [List.mem_cons]
    constructor
    · rintro ((h | h) | ⟨d, hd, hf⟩)
      · exact Or.inl h
      · exact Or.inr ⟨c, Or.inl rfl, h.1, h.2⟩
      · exact Or.inr ⟨d, Or.inr hd, hf⟩
    · rintro (h | ⟨d, (rfl | hd), hf⟩)
      · exact Or.inl (Or.inl h)
      · exact Or.inl (Or.inr hf)
      · exact Or.inr ⟨d, hd, hf⟩

theorem pushFold_queue_old (g : Grid) {α : Type} (f : α → Option Nat)
    (cs : List α) : ∀ acc i, i ∈ acc.2 → i ∈ (pushFold g f acc cs).2 := by
  induction cs with
  | nil => intro acc i hi; exact hi
  | cons c cs ih =>
    intro acc i hi
    exact ih _ _ (pushNew_queue_old g acc (f c) i hi)

theorem pushFold_fst_or_queue (g : Grid) {α : Type} (f : α → Option Nat)
    (cs : List α) : ∀ acc i, i ∈ (pushFold g f acc cs).1 →
      i ∈ acc.1 ∨ i ∈ (pushFold g f acc cs).2 := by
  induction cs with
  | nil => intro acc i hi; exact Or.inl hi
  | cons c cs ih =>
    intro acc i hi
    rcases ih _ _ hi with h | h
    · rcases pushNew_fst_or_queue g acc (f c) i h with h2 | h2
      · exact Or.inl h2
      · exact Or.inr (pushFold_queue_old g f cs _ i h2)
    · exact Or.inr h

theorem pushNew_queue_sub_fst (g : Grid) (acc : Finset Nat × List Nat)
    (cand : Option Nat) (h : ∀ i ∈ acc.2, i ∈ acc.1) :
    ∀ i ∈ (pushNew g acc cand).2, i ∈ (pushNew g acc cand).1 := by
  cases cand with
  | none => exact h
  | some n =>
    rw [pushNew]
    split
    · intro i hi
      simp only [List.mem_append, List.mem_singleton] at hi
      rcases hi with hi | rfl
      · exact Finset.mem_insert_of_mem (h i hi)
      · exact Finset.mem_insert_self _ _
    · exact h

theorem pushFold_queue_sub_fst (g : Grid) {α : Type} (f : α → Option Nat)
    (cs : List α) : ∀ acc, (∀ i ∈ acc.2, i ∈ acc.1) →
      ∀ i ∈ (pushFold g f acc cs).2, i ∈ (pushFold g f acc cs).1 := by
  induction cs with
  | nil => intro acc h i hi; exact h i hi
  | cons c cs ih =>
    intro acc h i hi
    exact ih _ (pushNew_queue_sub_fst g acc (f c) h) i hi

theorem pushFold_card (g : Grid) {α : Type} (f : α → Option Nat) (cs : List α) :
    ∀ acc, ∃ k, (pushFold g f acc cs).1.card = acc.1.card + k ∧
      (pushFold g f acc cs).2.length = acc.2.length + k := by
  induction cs with
  | nil => intro acc; exact ⟨0, rfl, rfl⟩
  | cons c cs ih =>
    intro acc
    obtain ⟨k1, hc1, hl1⟩ := pushNew_card g acc (f c)
    obtain ⟨k2, hc2, hl2⟩ := ih (pushNew g acc (f c))
    have hstep : pushFold g f acc (c :: cs) = pushFold g f (pushNew g acc (f c)) cs := rfl
    rw [hstep]
    exact ⟨k1 + k2, by omega, by omega⟩

theorem neighborOK_lt (cur : Nat) (off : Int) (j : Nat)
    (h : neighborOK cur off = some j) : j < totalCells := by
  simp only [neighborOK] at h
  split_ifs at h with h1 h2 h3
  simp only [Option.some.injEq] at h
  omega

theorem neighborOK_adj (cur : Nat) (hcur : cur < totalCells) (off : Int)
    (hoff : off ∈ offsets) (j : Nat) (h : neighborOK cur off = some j) :
    adj4 cur j := by
  have hWN : GAME_WIDTH = 600 := rfl
  have hNN : totalCells = 270000 := rfl
  have hWI : ((GAME_WIDTH : Nat) : Int) = 600 := by norm_num [GAME_WIDTH]
  have hNI : ((totalCells : Nat) : Int) = 270000 := by
    norm_num [totalCells, GAME_WIDTH, GAME_HEIGHT]
  have hjN : j < totalCells := neighborOK_lt cur off j h
  simp only [neighborOK, hWI, hNI] at h
  simp only [offsets, hWI, List.mem_cons, List.not_mem_nil, or_false] at hoff
  simp only [adj4, cellX, cellY, hWN, hNN]
  rw [hNN] at hcur hjN
  split_ifs at h with h1 h2 h3
  simp only [Option.some.injEq] at h
  rcases hoff with rfl | rfl | rfl | rfl
  · -- offset -GAME_WIDTH: the cell one row up
    refine ⟨by omega, by omega, Or.inl ⟨by omega, Or.inr (by omega)⟩⟩
  · -- offset +GAME_WIDTH: the cell one row down
    refine ⟨by omega, by omega, Or.inl ⟨by omega, Or.inl (by omega)⟩⟩
  · -- offset -1: the cell to the left, guarded against row wrap by h3
    refine ⟨by omega, by omega, Or.inr ⟨by omega, Or.inr (by omega)⟩⟩
  · -- offset +1: the cell to the right, guarded against row wrap by h2
    refine ⟨by omega, by omega, Or.inr ⟨by omega, Or.inl (by omega)⟩⟩

theorem adj4_neighborOK (i j : Nat) (h : adj4 i j) :
    ∃ off ∈ offsets, neighborOK i off = some j := by
  have hWN : GAME_WIDTH = 600 := rfl
  have hNN : totalCells = 270000 := rfl
  have hWI : ((GAME_WIDTH : Nat) : Int) = 600 := by norm_num [GAME_WIDTH]
  have hNI : ((totalCells : Nat) : Int) = 270000 := by
    norm_num [totalCells, GAME_WIDTH, GAME_HEIGHT]
  obtain ⟨hi, hj, hca⟩ := h
  rw [hNN] at hi hj
  simp only [cellX, cellY, hWN] at hca
  rcases hca with ⟨hx, hy | hy⟩ | ⟨hy, hx | hx⟩
  · -- j is one row below i: offset +GAME_WIDTH
    refine ⟨(GAME_WIDTH : Int), by simp [offsets], ?_⟩
    have hij : j = i + 600 := by omega
    simp only [neighborOK, hWI, hNI]
    split_ifs with h1 h2 h3 <;>
      first
        | (simp only [Option.some.injEq]; omega)
        | omega
        | exact h3.1
        | exact h2.1
  · -- j is one row above i: offset -GAME_WIDTH
    refine ⟨-(GAME_WIDTH : Int), by simp [offsets], ?_⟩
    have hij : i = j + 600 := by omega
    simp only [neighborOK, hWI, hNI]
    split_ifs with h1 h2 h3 <;>
      first
        | (simp only [Option.some.injEq]; omega)
        | omega
        | exact h3.1
        | exact h2.1
  · -- j is to the right of i: offset +1, no wrap since i is not at column end
    refine ⟨(1 : Int), by simp [offsets], ?_⟩
    have hij : j = i + 1 := by omega
    simp only [neighborOK, hWI, hNI]
    split_ifs with h1 h2 h3 <;>
      first
        | (simp only [Option.some.injEq]; omega)
        | omega
        | exact h3.1
        | exact h2.1
  · -- j is to the left of i: offset -1, no wrap since i is not at column start
    refine ⟨(-1 : Int), by simp [offsets], ?_⟩
    have hij : i = j + 1 := by omega
    simp only [neighborOK, hWI, hNI]
    split_ifs with h1 h2 h3 <;>
      first
        | (simp only [Option.some.injEq]; omega)
        | omega
        | exact h3.1
        | exact h2.1

/-- Combined soundness, monotonicity, and (at queue exhaustion) closure of the
BFS loop, by induction on the fuel: the fuel bound `2·(free cells) + |queue|`
strictly decreases at every iteration, so the queue drains before the fuel runs
out, and the final visited set is exactly closed under Open-cell steps. -/
theorem bfsAux_spec (g : Grid) (S : Finset Nat) :
    ∀ (fuel : Nat) (v : Finset Nat) (q : List Nat),
      (∀ i ∈ v, i < totalCells) →
      (∀ i ∈ v, g i = STATE_MASKED ∧ ReachFrom g S i) →
      (∀ i ∈ q, i ∈ v) →
      (∀ i ∈ v, i ∉ q → ∀ j, adj4 i j → g j = STATE_MASKED → j ∈ v) →
      2 * (totalCells - v.card) + q.length ≤ fuel →
      (∀ i ∈ bfsAux g fuel v q, g i = STATE_MASKED ∧ ReachFrom g S i) ∧
      v ⊆ bfsAux g fuel v q ∧
      (∀ i ∈ bfsAux g fuel v q, ∀ j, adj4 i j → g j = STATE_MASKED →
        j ∈ bfsAux g fuel v q) := by
  intro fuel
  induction fuel with
  | zero =>
    intro v q hvN hvP hqv hcl hfuel
    have hq : q = [] := List.length_eq_zero.mp (by omega)
    subst hq
    exact ⟨hvP, Finset.Subset.refl _, fun i hi j hadj hmask =>
      hcl i hi (by simp) j hadj hmask⟩
  | succ n ih =>
    intro v q hvN hvP hqv hcl hfuel
    cases q with
    | nil =>
      exact ⟨hvP, Finset.Subset.refl _, fun i hi j hadj hmask =>
        hcl i hi (by simp) j hadj hmask⟩
    | cons cur rest =>
      have hunf : bfsAux g (n + 1) v (cur :: rest)
          = bfsAux g n (pushFold g (neighborOK cur) (v, rest) offsets).1
              (pushFold g (neighborOK cur) (v, rest) offsets).2 := rfl
      rw [hunf]
      have hcur_v : cur ∈ v := hqv cur (by simp)
      have hcurN : cur < totalCells := hvN cur hcur_v
      have hsub : v ⊆ (pushFold g (neighborOK cur) (v, rest) offsets).1 :=
        pushFold_fst_subset g (neighborOK cur) offsets (v, rest)
      have hmem : ∀ i, i ∈ (pushFold g (neighborOK cur) (v, rest) offsets).1 ↔
          i ∈ v ∨ ∃ off ∈ offsets, neighborOK cur off = some i ∧
            g i = STATE_MASKED :=
        fun i => pushFold_mem g (neighborOK cur) offsets (v, rest) i
      have hvN' : ∀ i ∈ (pushFold g (neighborOK cur) (v, rest) offsets).1,
          i < totalCells := by
        intro i hi
        rcases (hmem i).mp hi with h | ⟨off, _, hok, _⟩
        · exact hvN i h
        · exact neighborOK_lt cur off i hok
      have hvP' : ∀ i ∈ (pushFold g (neighborOK cur) (v, rest) offsets).1,
          g i = STATE_MASKED ∧ ReachFrom g S i := by
        intro i hi
        rcases (hmem i).mp hi with h | ⟨off, hoffm, hok, hmask⟩
        · exact hvP i h
        · refine ⟨hmask, ?_⟩
          obtain ⟨src, hsrc, hreach⟩ := (hvP cur hcur_v).2
          exact ⟨src, hsrc,
            hreach.tail ⟨neighborOK_adj cur hcurN off hoffm i hok, hmask⟩⟩
      have hqv' : ∀ i ∈ (pushFold g (neighborOK cur) (v, rest) offsets).2,
          i ∈ (pushFold g (neighborOK cur) (v, rest) offsets).1 :=
        pushFold_queue_sub_fst g (neighborOK cur) offsets (v, rest)
          (fun i hi => hqv i (by simp only [List.mem_cons]; exact Or.inr hi))
      have hcl' : ∀ i ∈ (pushFold g (neighborOK cur) (v, rest) offsets).1,
          i ∉ (pushFold g (neighborOK cur) (v, rest) offsets).2 →
          ∀ j, adj4 i j → g j = STATE_MASKED →
            j ∈ (pushFold g (neighborOK cur) (v, rest) offsets).1 := by
        intro i hi hiq j hadj hmask
        by_cases hic : i = cur
        · subst hic
          obtain ⟨off, hoffm, hok⟩ := adj4_neighborOK i j hadj
          exact (hmem j).mpr (Or.inr ⟨off, hoffm, hok, hmask⟩)
        · rcases pushFold_fst_or_queue g (neighborOK cur) offsets (v, rest) i hi
            with h | h
          · have hirest : i ∉ rest := fun hr =>
              hiq (pushFold_queue_old g (neighborOK cur) offsets (v, rest) i hr)
            refine hsub (hcl i h ?_ j hadj hmask)
            simp only [List.mem_cons]
            push_neg
            exact ⟨hic, hirest⟩
          · exact absurd h hiq
      have hcard : ∃ k, (pushFold g (neighborOK cur) (v, rest) offsets).1.card
            = v.card + k ∧
          (pushFold g (neighborOK cur) (v, rest) offsets).2.length
            = rest.length + k := by
        simpa using pushFold_card g (neighborOK cur) offsets (v, rest)
      have hcardN : (pushFold g (neighborOK cur) (v, rest) offsets).1.card
          ≤ totalCells := by
        have hss : (pushFold g (neighborOK cur) (v, rest) offsets).1
            ⊆ Finset.range totalCells :=
          fun i hi => Finset.mem_range.mpr (hvN' i hi)
        simpa using Finset.card_le_card hss
      have hfuel' : 2 * (totalCells
            - (pushFold g (neighborOK cur) (v, rest) offsets).1.card)
          + (pushFold g (neighborOK cur) (v, rest) offsets).2.length ≤ n := by
        obtain ⟨k, hk1, hk2⟩ := hcard
        simp only [List.length_cons] at hfuel
        omega
      obtain ⟨hP, hsub2, hclR⟩ := ih _ _ hvN' hvP' hqv' hcl' hfuel'
      exact ⟨hP, hsub.trans hsub2, hclR⟩

theorem seedCand_lt (p : Int × Int) (j : Nat) (h : seedCand p = some j) :
    j < totalCells := by
  simp only [seedCand] at h
  split_ifs at h with h1
  simp only [Option.some.injEq] at h
  omega

theorem seedCand_some_eq (p : Int × Int) (j : Nat) (h : seedCand p = some j) :
    seedIdx p = j := by
  simp only [seedCand] at h
  split_ifs at h with h1
  simp only [Option.some.injEq] at h
  exact h

theorem seedCand_inbounds (p : Int × Int) (hx0 : 0 ≤ p.1)
    (hx1 : p.1 < (GAME_WIDTH : Int)) (hy0 : 0 ≤ p.2)
    (hy1 : p.2 < (GAME_HEIGHT : Int)) : seedCand p = some (seedIdx p) := by
  have hWI : ((GAME_WIDTH : Nat) : Int) = 600 := by norm_num [GAME_WIDTH]
  have hHI : ((GAME_HEIGHT : Nat) : Int) = 450 := by norm_num [GAME_HEIGHT]
  have hNI : ((totalCells : Nat) : Int) = 270000 := by
    norm_num [totalCells, GAME_WIDTH, GAME_HEIGHT]
  rw [hWI] at hx1
  rw [hHI] at hy1
  simp only [seedCand, seedIdx, hWI, hNI]
  rw [if_pos (by constructor <;> omega)]

/-- CLAIM C1 — for every grid and every list of (floored, in-range) seed
points, `getBossReachableArea(grid, seeds)` returns exactly the indices of Open
(`STATE_MASKED`) cells connected to some seed lying on an Open cell by a path
of 4-connected Open cells.  A seed on a Claimed or Trail cell contributes
nothing (the right-hand side requires `g (seedIdx p) = STATE_MASKED`), and a
step of `adj4` by construction never wraps across a row boundary nor leaves
the grid.  The embedding of the call is a pure function of the grid snapshot,
so the grid is left unchanged by construction, matching the source, which
performs no writes. -/
theorem claim_C1 (g : Grid) (pts : List (Int × Int))
    (hpts : ∀ p ∈ pts, 0 ≤ p.1 ∧ p.1 < (GAME_WIDTH : Int) ∧ 0 ≤ p.2 ∧
      p.2 < (GAME_HEIGHT : Int)) (i : Nat) :
    i ∈ getBossReachableArea g pts ↔
      ∃ p ∈ pts, g (seedIdx p) = STATE_MASKED ∧
        Relation.ReflTransGen (openStep g) (seedIdx p) i := by
  have hseedmem : ∀ j, j ∈ (seedInit g pts).1 ↔
      ∃ p ∈ pts, seedCand p = some j ∧ g j = STATE_MASKED := by
    intro j
    simpa using pushFold_mem g seedCand pts (∅, []) j
  have hvN : ∀ j ∈ (seedInit g pts).1, j < totalCells := by
    intro j hj
    rcases (hseedmem j).mp hj with ⟨p, _, hc, _⟩
    exact seedCand_lt p j hc
  have hvP : ∀ j ∈ (seedInit g pts).1,
      g j = STATE_MASKED ∧ ReachFrom g (seedInit g pts).1 j := by
    intro j hj
    rcases (hseedmem j).mp hj with ⟨p, _, _, hm⟩
    exact ⟨hm, j, hj, Relation.ReflTransGen.refl⟩
  have hqv : ∀ j ∈ (seedInit g pts).2, j ∈ (seedInit g pts).1 :=
    pushFold_queue_sub_fst g seedCand pts (∅, []) (by simp)
  have hcl : ∀ j ∈ (seedInit g pts).1, j ∉ (seedInit g pts).2 →
      ∀ k, adj4 j k → g k = STATE_MASKED → k ∈ (seedInit g pts).1 := by
    intro j hj hjq k _ _
    rcases pushFold_fst_or_queue g seedCand pts (∅, []) j hj with h | h
    · simp at h
    · exact absurd h hjq
  have hfuel : 2 * (totalCells - (seedInit g pts).1.card)
      + (seedInit g pts).2.length
      ≤ 2 * totalCells + (seedInit g pts).2.length := by omega
  obtain ⟨hP, hsub, hclR⟩ := bfsAux_spec g (seedInit g pts).1
    (2 * totalCells + (seedInit g pts).2.length) (seedInit g pts).1
    (seedInit g pts).2 hvN hvP hqv hcl hfuel
  have hR : getBossReachableArea g pts
      = bfsAux g (2 * totalCells + (seedInit g pts).2.length)
          (seedInit g pts).1 (seedInit g pts).2 := rfl
  rw [hR]
  constructor
  · intro hi
    obtain ⟨hm, s, hs, hreach⟩ := hP i hi
    rcases (hseedmem s).mp hs with ⟨p, hp, hc, hsm⟩
    have he : seedIdx p = s := seedCand_some_eq p s hc
    rw [← he] at hsm hreach
    exact ⟨p, hp, hsm, hreach⟩
  · rintro ⟨p, hp, hm, hreach⟩
    have hc : seedCand p = some (seedIdx p) :=
      seedCand_inbounds p (hpts p hp).1 (hpts p hp).2.1 (hpts p hp).2.2.1
        (hpts p hp).2.2.2
    have hs : seedIdx p ∈ (seedInit g pts).1 :=
      (hseedmem _).mpr ⟨p, hp, hc, hm⟩
    induction hreach with
    | refl => exact hsub hs
    | tail h1 h2 ih => exact hclR _ ih _ h2.1 h2.2

/-- Witness for C1: a fully Open grid with the single in-range seed `(5, 5)`. -/
theorem claim_C1_witness :
    (∀ p ∈ [((5 : Int), (5 : Int))], 0 ≤ p.1 ∧ p.1 < (GAME_WIDTH : Int) ∧
      0 ≤ p.2 ∧ p.2 < (GAME_HEIGHT : Int)) ∧
    (seedIdx (5, 5) ∈ getBossReachableArea (fun _ => STATE_MASKED) [(5, 5)] ↔
      ∃ p ∈ [((5 : Int), (5 : Int))],
        (fun _ => STATE_MASKED) (seedIdx p) = STATE_MASKED ∧
        Relation.ReflTransGen (openStep (fun _ => STATE_MASKED)) (seedIdx p)
          (seedIdx (5, 5))) :=
  ⟨by decide, claim_C1 (fun _ => STATE_MASKED) [(5, 5)] (by decide) (seedIdx (5, 5))⟩

/-! ### Game-state fragments of GameCanvas.tsx (current variant, lines 1307-2854)

The mutable refs of the component are gathered into `CapState`; rendering,
audio and particle effects are outside the simulation kernel and are omitted.
Float positions are rationals, `Math.floor` is `Int.floor`, and indexing an
enemy/power-up cell uses the same `getIndex(floor x, floor y)` expression as
the source (`floorIdx`/`gridReadZ`). -/

/-- Enemy kinds (`EnemyType` in src/types.ts). -/
inductive EnemyType
  | QIX
  | HUNTER
  | PATROLLER
deriving DecidableEq

/-- The fields of `Enemy` (src/types.ts) that the verified fragments read. -/
structure Enemy where
  etype : EnemyType
  x : ℚ
  y : ℚ
  radius : ℚ
  speed : ℚ
  isEnraged : Bool
deriving DecidableEq

/-- Buff kinds (`PowerUpType` in src/types.ts). -/
inductive PowerUpType
  | FREEZE
  | SPEED
  | SHIELD
  | SLOW
  | RAPID_FIRE
  | SHOTGUN
  | LIFE
deriving DecidableEq

/-- Power-up / trap record (`PowerUp` in src/types.ts). -/
structure PowerUp where
  ptype : PowerUpType
  isDebuff : Bool
  x : ℚ
  y : ℚ
deriving DecidableEq

/-- `ActiveEffects` from src/types.ts: expiry timestamps per effect. -/
structure ActiveEffects where
  frozenUntil : ℚ
  speedUntil : ℚ
  shieldUntil : ℚ
  slowUntil : ℚ
  rapidFireUntil : ℚ
  shotgunUntil : ℚ
  confusionUntil : ℚ
  darknessUntil : ℚ
  enemyRageUntil : ℚ
deriving DecidableEq

/-- `POWERUP_DURATION` from src/constants (milliseconds). -/
def POWERUP_DURATION : ℚ := 5000

/-- The slice of GameCanvas's mutable refs read or written by `captureArea`:
grid, score, combo multiplier and decay timer, enemies, power-ups, lives,
active effects, and whether `setGameState('WON')` was raised. -/
structure CapState where
  grid : Grid
  score : Nat
  combo : Nat
  comboTimer : ℚ
  enemies : List Enemy
  powerUps : List PowerUp
  lives : Nat
  effects : ActiveEffects
  won : Bool

/-- `getIndex(Math.floor(x), Math.floor(y))` as an integer (may be out of array
range for off-grid positions, handled by `gridReadZ`). -/
def floorIdx (x y : ℚ) : Int := ⌊y⌋ * (GAME_WIDTH : Int) + ⌊x⌋

/-- Read of the grid typed array at a possibly out-of-range index: JS yields
`undefined` (here `none`) outside `[0, totalCells)`, which compares unequal to
every cell-state code. -/
def gridReadZ (g : Grid) (idx : Int) : Option Nat :=
  if 0 ≤ idx ∧ idx < (totalCells : Int) then some (g idx.toNat) else none

/-- The `capturedCount` of the grid loop of `captureArea`: Open cells outside
the safe (boss-reachable) set. -/
def capturedCountOf (g : Grid) (safe : Finset Nat) : Nat :=
  ((Finset.range totalCells).filter fun i => g i = STATE_MASKED ∧ i ∉ safe).card

/-- The grid after the grid loop of `captureArea` (lines 1689-1704): Open cells
outside the safe set become Claimed, every Trail cell becomes Claimed, all
other cells keep their state. -/
def captureGrid (g : Grid) (safe : Finset Nat) : Grid := fun i =>
  if i < totalCells ∧ (g i = STATE_MASKED ∧ i ∉ safe ∨ g i = STATE_TRAIL)
  then STATE_CLEARED else g i

/-- The `totalCleared` count of the grid loop of `captureArea`. -/
def totalClearedOf (g : Grid) : Nat :=
  ((Finset.range totalCells).filter fun i => g i = STATE_CLEARED).card

/-- Seed selection of the current `captureArea` (lines 1678-1683): positions of
the QIX enemies only, floored to grid points.  There is no fallback — with no
QIX alive the list is empty. -/
def qixSeeds (enemies : List Enemy) : List (Int × Int) :=
  (enemies.filter fun e => decide (e.etype = EnemyType.QIX)).map
    fun e => (⌊e.x⌋, ⌊e.y⌋)

/-- Seed selection of the earlier GameCanvas variant (first document, lines
694-697): like `qixSeeds`, but falling back to the single grid-center point
when no QIX is alive. -/
def captureSeedsV1 (enemies : List Enemy) : List (Int × Int) :=
  let qixes := enemies.filter fun e => decide (e.etype = EnemyType.QIX)
  if 0 < qixes.length then qixes.map fun e => (⌊e.x⌋, ⌊e.y⌋)
  else [((GAME_WIDTH : Int) / 2, (GAME_HEIGHT : Int) / 2)]

/-- The combo update of the earlier GameCanvas variant (first document, line
727): `comboMultiplier = Math.min(comboMultiplier + 1, 10)`. -/
def captureComboV1 (c : Nat) : Nat := min (c + 1) 10

/-- The combo cap configured in the earlier GameCanvas variant (line 727). -/
def comboCapV1 : Nat := 10

/-- Effect application for a power-up lying in freshly Claimed territory
(`captureArea`, lines 1744-1793): a trap is disarmed for +500; a buff adds
+1000 and applies its effect (`LIFE` adds a life, the others set an expiry). -/
def applyPowerUpEffect (now : ℚ) (p : PowerUp) (st : CapState) : CapState :=
  if p.isDebuff then { st with score := st.score + 500 }
  else
    let st1 := { st with score := st.score + 1000 }
    match p.ptype with
    | PowerUpType.LIFE => { st1 with lives := st1.lives + 1 }
    | PowerUpType.FREEZE =>
      { st1 with effects := { st1.effects with frozenUntil := now + POWERUP_DURATION } }
    | PowerUpType.SPEED =>
      { st1 with effects := { st1.effects with speedUntil := now + POWERUP_DURATION } }
    | PowerUpType.SHIELD =>
      { st1 with effects := { st1.effects with shieldUntil := now + POWERUP_DURATION } }
    | PowerUpType.SLOW =>
      { st1 with effects := { st1.effects with slowUntil := now + POWERUP_DURATION } }
    | PowerUpType.RAPID_FIRE =>
      { st1 with effects := { st1.effects with rapidFireUntil := now + 8000 } }
    | PowerUpType.SHOTGUN =>
      { st1 with effects := { st1.effects with shotgunUntil := now + 8000 } }

/-- `captureArea` of the current GameCanvas (lines 1674-1808).  The safe set is
the flood fill from the QIX positions; the grid loop claims unsafe Open cells
and every Trail cell; only when at least one Open cell was claimed do the
scoring, combo, enemy-kill and power-up steps run; the coverage/win check runs
unconditionally at the end.  The backwards-splice enemy-kill loop and the
power-up rebuild loop are expressed as filters over the updated grid. -/
def captureArea (winPercent : ℚ) (now : ℚ) (st : CapState) : CapState :=
  let safe := getBossReachableArea st.grid (qixSeeds st.enemies)
  let captured := capturedCountOf st.grid safe
  let g2 := captureGrid st.grid safe
  let total := totalClearedOf g2
  let st1 : CapState := { st with grid := g2 }
  let st2 :=
    if 0 < captured then
      let points := captured / 5 * st1.combo
      let stS : CapState := { st1 with
        score := st1.score + points
        combo := st1.combo + 1
        comboTimer := 4 }
      let killed := stS.enemies.filter fun e =>
        decide (¬e.etype = EnemyType.QIX ∧
          gridReadZ g2 (floorIdx e.x e.y) = some STATE_CLEARED)
      let stK : CapState := { stS with
        enemies := stS.enemies.filter fun e =>
          decide (e.etype = EnemyType.QIX ∨
            ¬gridReadZ g2 (floorIdx e.x e.y) = some STATE_CLEARED)
        score := stS.score + 1000 * killed.length }
      let collected := stK.powerUps.filter fun p =>
        decide (gridReadZ g2 (floorIdx p.x p.y) = some STATE_CLEARED)
      let remaining := stK.powerUps.filter fun p =>
        decide (¬gridReadZ g2 (floorIdx p.x p.y) = some STATE_CLEARED)
      let stP := collected.foldl (fun s p => applyPowerUpEffect now p s) stK
      { stP with powerUps := remaining }
    else st1
  let percent := (total : ℚ) / (totalCells : ℚ)
  if winPercent ≤ percent then { st2 with won := true } else st2

theorem applyPowerUpEffect_fields (now : ℚ) (p : PowerUp) (st : CapState) :
    (applyPowerUpEffect now p st).grid = st.grid ∧
    (applyPowerUpEffect now p st).combo = st.combo ∧
    (applyPowerUpEffect now p st).comboTimer = st.comboTimer ∧
    (applyPowerUpEffect now p st).enemies = st.enemies ∧
    (applyPowerUpEffect now p st).powerUps = st.powerUps ∧
    (applyPowerUpEffect now p st).won = st.won := by
  by_cases hd : p.isDebuff
  · simp [applyPowerUpEffect, hd]
  · cases hp : p.ptype <;> simp [applyPowerUpEffect, hd, hp]

theorem foldl_applyPowerUpEffect_fields (now : ℚ) (ps : List PowerUp) :
    ∀ st : CapState,
      (ps.foldl (fun s p => applyPowerUpEffect now p s) st).grid = st.grid ∧
      (ps.foldl (fun s p => applyPowerUpEffect now p s) st).combo = st.combo ∧
      (ps.foldl (fun s p => applyPowerUpEffect now p s) st).comboTimer
        = st.comboTimer ∧
      (ps.foldl (fun s p => applyPowerUpEffect now p s) st).enemies
        = st.enemies := by
  induction ps with
  | nil => intro st; exact ⟨rfl, rfl, rfl, rfl⟩
  | cons p ps ih =>
    intro st
    obtain ⟨h1, h2, h3, h4⟩ := ih (applyPowerUpEffect now p st)
    obtain ⟨g1, g2, g3, g4, _, _⟩ := applyPowerUpEffect_fields now p st
    exact ⟨h1.trans g1, h2.trans g2, h3.trans g3, h4.trans g4⟩

theorem captureArea_grid (winPercent now : ℚ) (st : CapState) :
    (captureArea winPercent now st).grid
      = captureGrid st.grid (getBossReachableArea st.grid (qixSeeds st.enemies)) := by
  simp only [captureArea]
  split_ifs <;>
    first
      | rfl
      | exact (foldl_applyPowerUpEffect_fields now _ _).1

theorem captureGrid_cleared (g : Grid) (safe : Finset Nat) (i : Nat)
    (h : g i = STATE_CLEARED) : captureGrid g safe i = STATE_CLEARED := by
  simp only [captureGrid]
  split_ifs
  · rfl
  · exact h

theorem totalCleared_mono (g : Grid) (safe : Finset Nat) :
    totalClearedOf g ≤ totalClearedOf (captureGrid g safe) := by
  apply Finset.card_le_card
  intro i hi
  rw [Finset.mem_filter] at hi ⊢
  exact ⟨hi.1, captureGrid_cleared g safe i hi.2⟩

/-- CLAIM C3 — a single invocation of `captureArea` never changes a Claimed
cell to another state, and the number of Claimed cells never decreases. -/
theorem claim_C3 (winPercent now : ℚ) (st : CapState) :
    (∀ i, st.grid i = STATE_CLEARED →
      (captureArea winPercent now st).grid i = STATE_CLEARED) ∧
    totalClearedOf st.grid ≤ totalClearedOf (captureArea winPercent now st).grid := by
  rw [captureArea_grid]
  exact ⟨fun i h => captureGrid_cleared _ _ i h, totalCleared_mono _ _⟩

theorem captureGrid_no_trail (g : Grid) (safe : Finset Nat) (i : Nat)
    (hi : i < totalCells) : captureGrid g safe i ≠ STATE_TRAIL := by
  simp only [captureGrid]
  split_ifs with hc
  · decide
  · intro ht
    exact hc ⟨hi, Or.inr ht⟩

/-- The zero-capture branch of `captureArea`: when no Open cell is claimed the
scoring, combo, enemy-kill and power-up steps are skipped (only the grid loop
and the coverage/win check run). -/
theorem captureArea_zero_skip (winPercent now : ℚ) (st : CapState)
    (h0 : capturedCountOf st.grid
      (getBossReachableArea st.grid (qixSeeds st.enemies)) = 0) :
    (captureArea winPercent now st).score = st.score ∧
    (captureArea winPercent now st).combo = st.combo ∧
    (captureArea winPercent now st).comboTimer = st.comboTimer ∧
    (captureArea winPercent now st).enemies = st.enemies ∧
    (captureArea winPercent now st).powerUps = st.powerUps ∧
    (captureArea winPercent now st).lives = st.lives ∧
    (captureArea winPercent now st).effects = st.effects := by
  simp only [captureArea, h0]
  norm_num
  split_ifs <;> exact ⟨rfl, rfl, rfl, rfl, rfl, rfl, rfl⟩

/-- The positive-capture branch of `captureArea` always increments the combo
multiplier by exactly one (there is no cap) and resets the decay timer to 4. -/
theorem captureArea_combo_pos (winPercent now : ℚ) (st : CapState)
    (h : 0 < capturedCountOf st.grid
      (getBossReachableArea st.grid (qixSeeds st.enemies))) :
    (captureArea winPercent now st).combo = st.combo + 1 ∧
    (captureArea winPercent now st).comboTimer = 4 := by
  simp only [captureArea, if_pos h]
  split_ifs <;>
    exact ⟨(foldl_applyPowerUpEffect_fields now _ _).2.1,
      (foldl_applyPowerUpEffect_fields now _ _).2.2.1⟩

/-- CLAIM C10 — after `captureArea`, no cell is in the Trail state (the grid
loop converts every Trail cell to Claimed unconditionally), and a capture that
claims zero Open cells skips the score, combo, enemy-destruction and
collectible-resolution steps entirely (the coverage/win check still runs). -/
theorem claim_C10 (winPercent now : ℚ) (st : CapState) :
    (∀ i, i < totalCells → (captureArea winPercent now st).grid i ≠ STATE_TRAIL) ∧
    (capturedCountOf st.grid (getBossReachableArea st.grid (qixSeeds st.enemies)) = 0 →
      (captureArea winPercent now st).score = st.score ∧
      (captureArea winPercent now st).combo = st.combo ∧
      (captureArea winPercent now st).comboTimer = st.comboTimer ∧
      (captureArea winPercent now st).enemies = st.enemies ∧
      (captureArea winPercent now st).powerUps = st.powerUps ∧
      (captureArea winPercent now st).lives = st.lives ∧
      (captureArea winPercent now st).effects = st.effects) := by
  constructor
  · intro i hi
    rw [captureArea_grid]
    exact captureGrid_no_trail _ _ i hi
  · exact captureArea_zero_skip winPercent now st

theorem bfsAux_empty_queue (g : Grid) (fuel : Nat) (v : Finset Nat) :
    bfsAux g fuel v [] = v := by
  cases fuel <;> rfl

theorem getBossReachableArea_nil (g : Grid) : getBossReachableArea g [] = ∅ :=
  bfsAux_empty_queue g _ _

/-- A grid with every cell Claimed. -/
def gridAllCleared : Grid := fun _ => STATE_CLEARED

/-- A grid with the single cell 3005 Open, everything else Claimed. -/
def gridOneMasked : Grid := fun i => if i = 3005 then STATE_MASKED else STATE_CLEARED

/-- All effect expiries zero. -/
def effects0 : ActiveEffects := ⟨0, 0, 0, 0, 0, 0, 0, 0, 0⟩

theorem capturedCountOf_allCleared (safe : Finset Nat) :
    capturedCountOf gridAllCleared safe = 0 := by
  unfold capturedCountOf
  have he : (Finset.range totalCells).filter
      (fun i => gridAllCleared i = STATE_MASKED ∧ i ∉ safe) = ∅ :=
    Finset.filter_false_of_mem (fun i _ => by
      simp [gridAllCleared, STATE_CLEARED, STATE_MASKED])
  rw [he, Finset.card_empty]

theorem capturedCountOf_gridOne (safe : Finset Nat) (hs : 3005 ∉ safe) :
    capturedCountOf gridOneMasked safe = 1 := by
  unfold capturedCountOf
  have he : (Finset.range totalCells).filter
      (fun i => gridOneMasked i = STATE_MASKED ∧ i ∉ safe) = {3005} := by
    ext i
    simp only [Finset.mem_filter, Finset.mem_range, Finset.mem_singleton,
      gridOneMasked]
    constructor
    · rintro ⟨hiN, hm, hns⟩
      by_contra hne
      rw [if_neg hne] at hm
      exact absurd hm (by decide)
    · rintro rfl
      exact ⟨by decide, by simp, hs⟩
  rw [he, Finset.card_singleton]

/-- The combo-decay fragment of `update` (lines 1839-1846): while the decay
timer is positive it decreases by `dt`; when it crosses zero the multiplier
resets to 1 and the timer clamps to 0. -/
def comboDecayStep (dt : ℚ) (combo : Nat) (timer : ℚ) : Nat × ℚ :=
  if 0 < timer then
    let t2 := timer - dt
    if t2 ≤ 0 then (1, 0) else (combo, t2)
  else (combo, timer)

/-- The concrete state used to refute the combo cap: one Open capturable cell,
no enemies, multiplier already at the (v1-configured) cap of 10. -/
def stC4 : CapState :=
  { grid := gridOneMasked, score := 0, combo := 10, comboTimer := 1,
    enemies := [], powerUps := [], lives := 2, effects := effects0, won := false }

/-- COUNTEREXAMPLE to C4 — the current `captureArea` has no combo cap: from
multiplier 10 (the only cap configured anywhere in the repository, in the
earlier variant's `Math.min(c + 1, 10)`), a positive capture yields 11,
exceeding the cap. -/
theorem claim_C4_cex :
    (captureArea 1 0 stC4).combo = 11 ∧
    ¬(captureArea 1 0 stC4).combo ≤ comboCapV1 := by
  have hsafe : getBossReachableArea stC4.grid (qixSeeds stC4.enemies) = ∅ :=
    getBossReachableArea_nil _
  have hcap : capturedCountOf stC4.grid
      (getBossReachableArea stC4.grid (qixSeeds stC4.enemies)) = 1 := by
    rw [hsafe]
    exact capturedCountOf_gridOne ∅ (by simp)
  obtain ⟨hc, _⟩ := captureArea_combo_pos 1 0 stC4 (by rw [hcap]; norm_num)
  rw [hc]
  exact ⟨rfl, by decide⟩

/-- CLAIM C4 (amended) — the current `captureArea` increments the multiplier by
exactly 1 per positive capture, with no cap (only the earlier GameCanvas
variant caps it, via `min(c + 1, 10)`); the multiplier resets to exactly 1 and
the timer clamps to 0 when the combo-decay countdown crosses 0 with no
intervening capture, and is unchanged while the countdown is still positive. -/
theorem claim_C4_amended (winPercent now dt : ℚ) (st : CapState) (c : Nat) (t : ℚ) :
    (0 < capturedCountOf st.grid
        (getBossReachableArea st.grid (qixSeeds st.enemies)) →
      (captureArea winPercent now st).combo = st.combo + 1) ∧
    captureComboV1 c ≤ comboCapV1 ∧
    (0 < t → t - dt ≤ 0 → comboDecayStep dt c t = (1, 0)) ∧
    (0 < t → 0 < t - dt → comboDecayStep dt c t = (c, t - dt)) := by
  refine ⟨fun h => (captureArea_combo_pos winPercent now st h).1, ?_, ?_, ?_⟩
  · exact min_le_right _ _
  · intro h1 h2
    simp only [comboDecayStep, if_pos h1, if_pos h2]
  · intro h1 h2
    simp only [comboDecayStep, if_pos h1, if_neg (by linarith : ¬t - dt ≤ 0)]

/-- Witness for the amended C4 at the concrete capture state `stC4` and a
concrete decay step crossing zero. -/
theorem claim_C4_witness :
    (0 < capturedCountOf stC4.grid
      (getBossReachableArea stC4.grid (qixSeeds stC4.enemies))) ∧
    (captureArea 1 0 stC4).combo = stC4.combo + 1 ∧
    ((0 : ℚ) < 1 ∧ (1 : ℚ) - 2 ≤ 0 ∧ comboDecayStep 2 7 1 = (1, 0)) := by
  have hpos : 0 < capturedCountOf stC4.grid
      (getBossReachableArea stC4.grid (qixSeeds stC4.enemies)) := by
    have hsafe : getBossReachableArea stC4.grid (qixSeeds stC4.enemies) = ∅ :=
      getBossReachableArea_nil _
    rw [hsafe]
    show 0 < capturedCountOf gridOneMasked ∅
    rw [capturedCountOf_gridOne ∅ (by simp)]
    norm_num
  refine ⟨hpos, (claim_C4_amended 1 0 2 stC4 7 1).1 hpos, by norm_num,
    by norm_num, (claim_C4_amended 1 0 2 stC4 7 1).2.2.1 (by norm_num) (by norm_num)⟩

/-- The area-scoring step of a positive capture: when no enemy is killed and
no power-up is collected by the capture, the score increases by exactly
`floor(capturedCount / 5) * combo` (the multiplier read before its own
increment). -/
theorem captureArea_score_pos (winPercent now : ℚ) (st : CapState)
    (h : 0 < capturedCountOf st.grid
      (getBossReachableArea st.grid (qixSeeds st.enemies)))
    (hk : ∀ e ∈ st.enemies, ¬(¬e.etype = EnemyType.QIX ∧
      gridReadZ (captureGrid st.grid
          (getBossReachableArea st.grid (qixSeeds st.enemies)))
        (floorIdx e.x e.y) = some STATE_CLEARED))
    (hp : ∀ p ∈ st.powerUps, ¬gridReadZ (captureGrid st.grid
        (getBossReachableArea st.grid (qixSeeds st.enemies)))
      (floorIdx p.x p.y) = some STATE_CLEARED) :
    (captureArea winPercent now st).score
      = st.score + capturedCountOf st.grid
          (getBossReachableArea st.grid (qixSeeds st.enemies)) / 5 * st.combo := by
  have hkilled : st.enemies.filter (fun e =>
      decide (¬e.etype = EnemyType.QIX ∧
        gridReadZ (captureGrid st.grid
            (getBossReachableArea st.grid (qixSeeds st.enemies)))
          (floorIdx e.x e.y) = some STATE_CLEARED)) = [] := by
    rw [List.filter_eq_nil]
    intro e he
    simp only [decide_eq_true_eq]
    exact hk e he
  have hcoll : st.powerUps.filter (fun p =>
      decide (gridReadZ (captureGrid st.grid
          (getBossReachableArea st.grid (qixSeeds st.enemies)))
        (floorIdx p.x p.y) = some STATE_CLEARED)) = [] := by
    rw [List.filter_eq_nil]
    intro p hpv
    simp only [decide_eq_true_eq]
    exact hp p hpv
  simp only [captureArea, if_pos h]
  rw [hkilled, hcoll]
  split_ifs <;> simp

/-- The concrete state used to refute "on every capture the multiplier is
incremented and the countdown reset": a fully Claimed grid, so the capture
claims zero cells. -/
def stC8 : CapState :=
  { grid := gridAllCleared, score := 100, combo := 3, comboTimer := 0,
    enemies := [], powerUps := [], lives := 2, effects := effects0, won := false }

/-- COUNTEREXAMPLE to C8 — a capture that claims zero Open cells adds no
points, does not increment the multiplier and does not reset the countdown:
from combo 3 and timer 0 the state is unchanged, not 4 and 4.0. -/
theorem claim_C8_cex :
    (captureArea 1 0 stC8).score = 100 ∧
    (captureArea 1 0 stC8).combo = 3 ∧ ¬(captureArea 1 0 stC8).combo = 3 + 1 ∧
    (captureArea 1 0 stC8).comboTimer = 0 ∧
    ¬(captureArea 1 0 stC8).comboTimer = 4 := by
  have h0 : capturedCountOf stC8.grid
      (getBossReachableArea stC8.grid (qixSeeds stC8.enemies)) = 0 :=
    capturedCountOf_allCleared _
  obtain ⟨hs, hc, ht, _⟩ := captureArea_zero_skip 1 0 stC8 h0
  refine ⟨hs, hc, ?_, ht, ?_⟩
  · rw [hc]; decide
  · rw [ht]
    show ¬(0 : ℚ) = 4
    norm_num

/-- CLAIM C8 (amended) — on a capture that claims at least one Open cell, the
area-scoring step adds exactly `floor(newly_claimed / 5) * multiplier` (before
any enemy-kill or power-up bonus, which is why the kill/collect-free
hypotheses appear), after which the multiplier is incremented by 1 with no cap
and the countdown is reset to 4.0; a capture claiming zero cells leaves score,
multiplier and countdown unchanged. -/
theorem claim_C8_amended (winPercent now : ℚ) (st : CapState) :
    (0 < capturedCountOf st.grid
        (getBossReachableArea st.grid (qixSeeds st.enemies)) →
      (∀ e ∈ st.enemies, ¬(¬e.etype = EnemyType.QIX ∧
        gridReadZ (captureGrid st.grid
            (getBossReachableArea st.grid (qixSeeds st.enemies)))
          (floorIdx e.x e.y) = some STATE_CLEARED)) →
      (∀ p ∈ st.powerUps, ¬gridReadZ (captureGrid st.grid
          (getBossReachableArea st.grid (qixSeeds st.enemies)))
        (floorIdx p.x p.y) = some STATE_CLEARED) →
      (captureArea winPercent now st).score
          = st.score + capturedCountOf st.grid
              (getBossReachableArea st.grid (qixSeeds st.enemies)) / 5 * st.combo ∧
      (captureArea winPercent now st).combo = st.combo + 1 ∧
      (captureArea winPercent now st).comboTimer = 4) ∧
    (capturedCountOf st.grid
        (getBossReachableArea st.grid (qixSeeds st.enemies)) = 0 →
      (captureArea winPercent now st).score = st.score ∧
      (captureArea winPercent now st).combo = st.combo ∧
      (captureArea winPercent now st).comboTimer = st.comboTimer) := by
  constructor
  · intro h hk hp
    obtain ⟨hc, ht⟩ := captureArea_combo_pos winPercent now st h
    exact ⟨captureArea_score_pos winPercent now st h hk hp, hc, ht⟩
  · intro h0
    obtain ⟨hs, hc, ht, _⟩ := captureArea_zero_skip winPercent now st h0
    exact ⟨hs, hc, ht⟩

/-- The concrete positive-capture state witnessing the amended C8. -/
def stW8 : CapState :=
  { grid := gridOneMasked, score := 40, combo := 2, comboTimer := 1,
    enemies := [], powerUps := [], lives := 2, effects := effects0, won := false }

/-- Witness for the amended C8 at `stW8`: one cell is captured, no enemy or
power-up is involved, and the score/combo/timer conclusions are instantiated. -/
theorem claim_C8_witness :
    (0 < capturedCountOf stW8.grid
      (getBossReachableArea stW8.grid (qixSeeds stW8.enemies))) ∧
    (captureArea 1 0 stW8).score
        = stW8.score + capturedCountOf stW8.grid
            (getBossReachableArea stW8.grid (qixSeeds stW8.enemies)) / 5 * stW8.combo ∧
    (captureArea 1 0 stW8).combo = stW8.combo + 1 ∧
    (captureArea 1 0 stW8).comboTimer = 4 := by
  have hsafe : getBossReachableArea stW8.grid (qixSeeds stW8.enemies) = ∅ :=
    getBossReachableArea_nil _
  have hpos : 0 < capturedCountOf stW8.grid
      (getBossReachableArea stW8.grid (qixSeeds stW8.enemies)) := by
    rw [hsafe]
    show 0 < capturedCountOf gridOneMasked ∅
    rw [capturedCountOf_gridOne ∅ (by simp)]
    norm_num
  exact ⟨hpos, (claim_C8_amended 1 0 stW8).1 hpos (by simp [stW8]) (by simp [stW8])⟩

theorem bfsAux_subset (g : Grid) :
    ∀ (fuel : Nat) (v : Finset Nat) (q : List Nat), v ⊆ bfsAux g fuel v q := by
  intro fuel
  induction fuel with
  | zero => intro v q; exact Finset.Subset.refl _
  | succ n ih =>
    intro v q
    cases q with
    | nil => exact Finset.Subset.refl _
    | cons cur rest =>
      exact (pushFold_fst_subset g (neighborOK cur) offsets (v, rest)).trans (ih _ _)

theorem getBossReachableArea_seed_mem (g : Grid) (pts : List (Int × Int))
    (i : Nat) (hi : i ∈ (seedInit g pts).1) : i ∈ getBossReachableArea g pts := by
  show i ∈ bfsAux g (2 * totalCells + (seedInit g pts).2.length)
    (seedInit g pts).1 (seedInit g pts).2
  exact bfsAux_subset g _ _ _ hi

attribute [irreducible] bfsAux

/-- The grid `initGame` builds (lines 1427-1438): every cell Open except the
outermost one-cell ring, which is Claimed. -/
def initGrid : Grid := fun i =>
  if cellX i = 0 ∨ cellX i = GAME_WIDTH - 1 ∨ cellY i = 0 ∨
      cellY i = GAME_HEIGHT - 1
  then STATE_CLEARED else STATE_MASKED

/-- A non-QIX enemy (a Hunter), for states without an anchor hostile. -/
def hunterFoe : Enemy :=
  { etype := EnemyType.HUNTER, x := 100, y := 100, radius := 8, speed := 1,
    isEnraged := false }

/-- A freshly initialised board whose only enemy is a Hunter: no QIX anchor
exists when a capture runs. -/
def stC6 : CapState :=
  { grid := initGrid, score := 0, combo := 1, comboTimer := 0,
    enemies := [hunterFoe], powerUps := [], lives := 2, effects := effects0,
    won := false }

/-- COUNTEREXAMPLE to C6 — with no QIX alive, the current `captureArea` runs
the flood fill with an *empty* seed list, not with the grid center: on the
fresh board the Open center cell `(300, 225)` is captured, whereas seeding
from the grid center (as the claim states, and as only the earlier variant's
seed selection does) would leave that cell Open. -/
theorem claim_C6_cex :
    qixSeeds stC6.enemies = [] ∧
    (captureArea 1 0 stC6).grid (getIndex 300 225) = STATE_CLEARED ∧
    captureGrid initGrid
        (getBossReachableArea initGrid
          [((GAME_WIDTH : Int) / 2, (GAME_HEIGHT : Int) / 2)])
        (getIndex 300 225) = STATE_MASKED := by
  refine ⟨rfl, ?_, ?_⟩
  · rw [captureArea_grid]
    have hsafe : getBossReachableArea stC6.grid (qixSeeds stC6.enemies) = ∅ :=
      getBossReachableArea_nil _
    rw [hsafe]
    decide
  · have hmem : getIndex 300 225 ∈ getBossReachableArea initGrid
        [((GAME_WIDTH : Int) / 2, (GAME_HEIGHT : Int) / 2)] := by
      apply getBossReachableArea_seed_mem
      apply (pushFold_mem initGrid seedCand _ (∅, []) _).mpr
      refine Or.inr ⟨((GAME_WIDTH : Int) / 2, (GAME_HEIGHT : Int) / 2),
        by simp, by decide, by decide⟩
    simp only [captureGrid]
    rw [if_neg]
    · decide
    · rintro ⟨-, h | h⟩
      · exact h.2 hmem
      · revert h
        decide

/-- CLAIM C6 (amended) — if no QIX exists when the current `captureArea` runs,
the flood fill receives an empty seed list (the grid-center fallback exists
only in the earlier GameCanvas variant's seed selection, `captureSeedsV1`),
the reachable set is empty, the fill terminates, and the entire Open region is
captured. -/
theorem claim_C6_amended (winPercent now : ℚ) (st : CapState)
    (hq : ∀ e ∈ st.enemies, ¬e.etype = EnemyType.QIX) :
    qixSeeds st.enemies = [] ∧
    getBossReachableArea st.grid (qixSeeds st.enemies) = ∅ ∧
    captureSeedsV1 [] = [((GAME_WIDTH : Int) / 2, (GAME_HEIGHT : Int) / 2)] ∧
    ∀ i, i < totalCells → st.grid i = STATE_MASKED →
      (captureArea winPercent now st).grid i = STATE_CLEARED := by
  have hqs : qixSeeds st.enemies = [] := by
    unfold qixSeeds
    rw [List.filter_eq_nil.mpr (fun e he => by
      simp only [decide_eq_true_eq]
      exact hq e he)]
    rfl
  refine ⟨hqs, by rw [hqs]; exact getBossReachableArea_nil _, rfl, ?_⟩
  intro i hiN him
  rw [captureArea_grid, hqs, getBossReachableArea_nil]
  simp only [captureGrid]
  rw [if_pos ⟨hiN, Or.inl ⟨him, Finset.not_mem_empty i⟩⟩]

/-- Witness for the amended C6 at the concrete anchor-free state `stC6`. -/
theorem claim_C6_witness :
    (∀ e ∈ stC6.enemies, ¬e.etype = EnemyType.QIX) ∧
    qixSeeds stC6.enemies = [] ∧
    (getIndex 5 5 < totalCells ∧ stC6.grid (getIndex 5 5) = STATE_MASKED) ∧
    (captureArea 1 0 stC6).grid (getIndex 5 5) = STATE_CLEARED := by
  have h := claim_C6_amended 1 0 stC6 (by decide)
  exact ⟨by decide, h.1, ⟨by decide, by decide⟩, h.2.2.2 _ (by decide) (by decide)⟩

/-! ### Player movement, trail rasterisation, death handling and timers
(`update` lines 1962-2023 and 2212-2238, `handleDeath` lines 1608-1635,
timer/combo fragments lines 1839-1854, enemy speed lines 2078-2081). -/

/-- The fields of `Player` (src/types.ts) the verified fragments read;
`lastDir` (used only for shooting) is omitted. -/
structure PlayerS where
  x : ℚ
  y : ℚ
  isDrawing : Bool
  lives : Nat
  invulnerableUntil : ℚ

/-- The trail-abort loop of `handleDeath` (lines 1624-1627): every Trail cell
of the grid reverts to Open. -/
def clearTrailGrid (g : Grid) : Grid := fun i =>
  if i < totalCells ∧ g i = STATE_TRAIL then STATE_MASKED else g i

/-- `handleDeath` (lines 1608-1635): with more than one life, lose a life,
gain a 2-second invulnerability window, stop drawing, clear the trail and
revert Trail cells to Open; otherwise the match is Lost (the returned flag
models `setGameState('LOST')`). -/
def handleDeath (now : ℚ) (pl : PlayerS) (g : Grid)
    (trail : List (ℚ × ℚ)) : PlayerS × Grid × List (ℚ × ℚ) × Bool :=
  if 1 < pl.lives then
    ({ pl with
        lives := pl.lives - 1
        invulnerableUntil := now + 2000
        isDrawing := false },
     clearTrailGrid g, [], false)
  else (pl, g, trail, true)

/-- The per-enemy player-contact check of `update` (lines 2212-2219): while
drawing, with neither shield nor invulnerability active, an overlapping
hostile triggers `handleDeath`.  The source's `Math.hypot(dx, dy) < r` is
modelled by the equivalent `dx² + dy² < r²` (both sides nonnegative). -/
def contactStep (now shieldUntil : ℚ) (pl : PlayerS) (g : Grid)
    (trail : List (ℚ × ℚ)) (e : Enemy) : PlayerS × Grid × List (ℚ × ℚ) × Bool :=
  if ¬now < shieldUntil ∧ ¬now < pl.invulnerableUntil ∧ pl.isDrawing = true ∧
      (pl.x - e.x) ^ 2 + (pl.y - e.y) ^ 2 < (e.radius + PLAYER_RADIUS) ^ 2 then
    handleDeath now pl g trail
  else (pl, g, trail, false)

/-- Stamping a rasterised segment into the grid (line 2010-2012):
`grid[getIndex(p.x, p.y)] = STATE_TRAIL` for every line point. -/
def stampTrail (g : Grid) (pts : List (Int × Int)) : Grid :=
  pts.foldl (fun acc p =>
    Function.update acc (getIndex p.1.toNat p.2.toNat) STATE_TRAIL) g

/-- `GAME_WIDTH` as a rational (the JS number used in float expressions such
as the movement clamp); equal to `(GAME_WIDTH : ℚ)` by `GAME_WIDTH_Q_eq`. -/
def GAME_WIDTH_Q : ℚ := 600

/-- `GAME_HEIGHT` as a rational; equal to `(GAME_HEIGHT : ℚ)`. -/
def GAME_HEIGHT_Q : ℚ := 450

theorem GAME_WIDTH_Q_eq : GAME_WIDTH_Q = (GAME_WIDTH : ℚ) := by
  norm_num [GAME_WIDTH_Q, GAME_WIDTH]

theorem GAME_HEIGHT_Q_eq : GAME_HEIGHT_Q = (GAME_HEIGHT : ℚ) := by
  norm_num [GAME_HEIGHT_Q, GAME_HEIGHT]

/-- JS `Math.abs` on rationals (kernel-computable). -/
def absQ (a : ℚ) : ℚ := if a < 0 then -a else a

/-- JS `Math.min` on rationals (kernel-computable). -/
def minQ (a b : ℚ) : ℚ := if a ≤ b then a else b

/-- JS `Math.max` on rationals (kernel-computable). -/
def maxQ (a b : ℚ) : ℚ := if a ≤ b then b else a

/-- The player-movement / trail fragment of `update` (lines 1978-2023): clamp
the tentative position, block movement into own Trail, start drawing when
stepping onto a non-Claimed cell, rasterise the segment from the last trail
point once it is more than 2 pixels away, and close the trail on a Claimed
cell.  The returned flag records that the source would invoke `captureArea`
(and clear the trail) at that point; the capture itself is `captureArea`. -/
def moveStep (g : Grid) (pl : PlayerS) (trail : List (ℚ × ℚ))
    (moveX moveY : ℚ) : Grid × PlayerS × List (ℚ × ℚ) × Bool :=
  let nextX := maxQ 0 (minQ (GAME_WIDTH_Q - 1) (pl.x + moveX))
  let nextY := maxQ 0 (minQ (GAME_HEIGHT_Q - 1) (pl.y + moveY))
  let nextIdx := getIndex (⌊nextX⌋).toNat (⌊nextY⌋).toNat
  if pl.isDrawing = true ∧ g nextIdx = STATE_TRAIL then
    (g, pl, trail, false)
  else
    let drawing1 : Bool := pl.isDrawing || decide (¬g nextIdx = STATE_CLEARED)
    let trail1 := if pl.isDrawing = false ∧ ¬g nextIdx = STATE_CLEARED
      then trail ++ [(pl.x, pl.y)] else trail
    if drawing1 = true then
      let st :=
        match trail1.getLast? with
        | none =>
          (stampTrail g (getPointsOnLine (⌊pl.x⌋, ⌊pl.y⌋) (⌊nextX⌋, ⌊nextY⌋)),
           trail1 ++ [(nextX, nextY)])
        | some lp =>
          if 2 < absQ (lp.1 - nextX) ∨ 2 < absQ (lp.2 - nextY) then
            (stampTrail g (getPointsOnLine (⌊lp.1⌋, ⌊lp.2⌋) (⌊nextX⌋, ⌊nextY⌋)),
             trail1 ++ [(nextX, nextY)])
          else (g, trail1)
      if g nextIdx = STATE_CLEARED then
        (st.1, { pl with x := nextX, y := nextY, isDrawing := false },
         ([] : List (ℚ × ℚ)), true)
      else
        (st.1, { pl with x := nextX, y := nextY, isDrawing := true }, st.2, false)
    else
      (g, { pl with x := nextX, y := nextY }, trail1, false)

/-- The match-timer fragment of `update` (lines 1848-1852): while positive the
timer decreases by `dt` and clamps at 0; at 0 it is left untouched. -/
def timerStep (dt t : ℚ) : ℚ :=
  if 0 < t then
    let t2 := t - dt
    if t2 < 0 then 0 else t2
  else t

/-- `isRageMode` of `update` (line 1854): the timer has run out. -/
def isRageMode (t : ℚ) : Bool := decide (t ≤ 0)

/-- The effective-speed computation of `update` (lines 2078-2081): base speed,
halved under the slow effect, doubled under match rage or the global
enemy-rage trap, and multiplied by 1.8 for an enraged QIX (`0.5 = 1/2`,
`1.8 = 9/5` as rationals). -/
def effectiveSpeed (e : Enemy) (isSlowed isRage isGlobalRage : Bool) : ℚ :=
  let s1 := e.speed
  let s2 := if isSlowed then s1 * (1 / 2) else s1
  let s3 := if isRage || isGlobalRage then s2 * 2 else s2
  if e.isEnraged then s3 * (9 / 5) else s3

/-- The outermost ring of the grid. -/
def onRing (i : Nat) : Prop :=
  cellX i = 0 ∨ cellX i = GAME_WIDTH - 1 ∨ cellY i = 0 ∨
    cellY i = GAME_HEIGHT - 1

instance (i : Nat) : Decidable (onRing i) := by
  unfold onRing
  infer_instance

/-- COUNTEREXAMPLE to C5 — trail rasterisation CAN overwrite an outer-ring cell
with `STATE_TRAIL`: from the freshly initialised grid, the player settled on
the top edge at `(300, 0)` moves down by the base speed 3; drawing starts, and
the rasterised segment from `(300, 0)` to `(300, 3)` stamps the ring cell
`(300, 0)` as Trail, so the ring cell is no longer Claimed. -/
theorem claim_C5_cex :
    cellY (getIndex 300 0) = 0 ∧
    initGrid (getIndex 300 0) = STATE_CLEARED ∧
    (moveStep initGrid ⟨300, 0, false, 3, 0⟩ [] 0 3).1 (getIndex 300 0)
      = STATE_TRAIL := by
  refine ⟨by decide, by decide, ?_⟩
  have hx : maxQ 0 (minQ (GAME_WIDTH_Q - 1) ((300 : ℚ) + 0)) = 300 := by
    norm_num [maxQ, minQ, GAME_WIDTH_Q]
  have hy : maxQ 0 (minQ (GAME_HEIGHT_Q - 1) ((0 : ℚ) + 3)) = 3 := by
    norm_num [maxQ, minQ, GAME_HEIGHT_Q]
  simp only [moveStep, hx, hy]
  have ht3 : Int.toNat 3 = 3 := rfl
  have ht300 : Int.toNat 300 = 300 := rfl
  norm_num [initGrid, cellX, cellY, getIndex, STATE_CLEARED, STATE_MASKED,
    STATE_TRAIL, GAME_WIDTH, GAME_HEIGHT, ht3, ht300, Int.floor_ofNat,
    Int.floor_zero, List.getLast?, absQ]
  decide

/-- CLAIM C5 (amended) — the outer ring is Claimed at initialisation; a capture
never changes a Claimed cell (ring or not) and never writes Trail; the
trail-abort on life loss also never changes a Claimed cell.  However, trail
rasterisation may stamp a ring cell as Trail when a stroke starts on the ring
(see the counterexample), and the trail abort then reverts such a cell to
Open, so the ring is not invariant under every operation as claimed. -/
theorem claim_C5_amended (g : Grid) (safe : Finset Nat) (i : Nat) :
    (onRing i → initGrid i = STATE_CLEARED) ∧
    (g i = STATE_CLEARED → captureGrid g safe i = STATE_CLEARED) ∧
    (i < totalCells → captureGrid g safe i ≠ STATE_TRAIL) ∧
    (g i = STATE_CLEARED → clearTrailGrid g i = STATE_CLEARED) := by
  refine ⟨?_, ?_, ?_, ?_⟩
  · intro h
    unfold onRing at h
    simp only [initGrid]
    rw [if_pos h]
  · exact captureGrid_cleared g safe i
  · exact captureGrid_no_trail g safe i
  · intro h
    simp only [clearTrailGrid]
    split_ifs with hc
    · rw [h] at hc
      exact absurd hc.2 (by decide)
    · exact h

/-- Witness for the amended C5 at the top-left corner cell of the fresh grid. -/
theorem claim_C5_witness :
    onRing 0 ∧ initGrid 0 = STATE_CLEARED ∧
    captureGrid initGrid ∅ 0 = STATE_CLEARED ∧
    captureGrid initGrid ∅ 0 ≠ STATE_TRAIL :=
  ⟨by decide, (claim_C5_amended initGrid ∅ 0).1 (by decide),
   (claim_C5_amended initGrid ∅ 0).2.1 (by decide),
   (claim_C5_amended initGrid ∅ 0).2.2.1 (by decide)⟩

/-- CLAIM C7 — a hostile overlapping the drawing player with no shield and no
invulnerability triggers `handleDeath`; with more than one life this costs
exactly one life, stops drawing, clears the trail, reverts every Trail cell to
Open (other cells untouched), opens a 2-second invulnerability window during
which further hostile contact changes nothing, and does not end the match;
with one life (none remaining after this hit) the match transitions to Lost. -/
theorem claim_C7 (now shieldUntil : ℚ) (pl : PlayerS) (g : Grid)
    (trail : List (ℚ × ℚ)) (e : Enemy)
    (hs : shieldUntil ≤ now) (hinv : pl.invulnerableUntil ≤ now)
    (hd : pl.isDrawing = true)
    (hov : (pl.x - e.x) ^ 2 + (pl.y - e.y) ^ 2 < (e.radius + PLAYER_RADIUS) ^ 2) :
    contactStep now shieldUntil pl g trail e = handleDeath now pl g trail ∧
    (1 < pl.lives →
      (handleDeath now pl g trail).1.lives = pl.lives - 1 ∧
      (handleDeath now pl g trail).1.isDrawing = false ∧
      (handleDeath now pl g trail).1.invulnerableUntil = now + 2000 ∧
      (handleDeath now pl g trail).2.2.1 = [] ∧
      (handleDeath now pl g trail).2.2.2 = false ∧
      (∀ i, i < totalCells → g i = STATE_TRAIL →
        (handleDeath now pl g trail).2.1 i = STATE_MASKED) ∧
      (∀ i, ¬g i = STATE_TRAIL → (handleDeath now pl g trail).2.1 i = g i) ∧
      (∀ (t s2 : ℚ) (g2 : Grid) (trail2 : List (ℚ × ℚ)) (e2 : Enemy),
        t < now + 2000 →
        contactStep t s2 (handleDeath now pl g trail).1 g2 trail2 e2
          = ((handleDeath now pl g trail).1, g2, trail2, false))) ∧
    (pl.lives ≤ 1 → handleDeath now pl g trail = (pl, g, trail, true)) := by
  refine ⟨?_, ?_, ?_⟩
  · simp only [contactStep]
    rw [if_pos ⟨not_lt.mpr hs, not_lt.mpr hinv, hd, hov⟩]
  · intro hl
    simp only [handleDeath, if_pos hl]
    refine ⟨trivial, trivial, trivial, trivial, trivial, ?_, ?_, ?_⟩
    · intro i hiN hit
      simp only [clearTrailGrid]
      rw [if_pos ⟨hiN, hit⟩]
    · intro i hit
      simp only [clearTrailGrid]
      rw [if_neg]
      rintro ⟨-, hc⟩
      exact hit hc
    · intro t s2 g2 trail2 e2 ht
      simp only [contactStep]
      rw [if_neg]
      rintro ⟨-, hni, -⟩
      exact hni ht
  · intro hl
    simp only [handleDeath]
    rw [if_neg (by omega)]

/-- Witness for C7: the hostile `hunterFoe` sits exactly on the drawing player
at `(100, 100)`, no shield, no invulnerability, three lives. -/
theorem claim_C7_witness :
    ((0 : ℚ) ≤ 10 ∧ (0 : ℚ) ≤ (10 : ℚ) ∧
      (⟨100, 100, true, 3, 0⟩ : PlayerS).isDrawing = true ∧
      (((100 : ℚ) - hunterFoe.x) ^ 2 + ((100 : ℚ) - hunterFoe.y) ^ 2
        < (hunterFoe.radius + PLAYER_RADIUS) ^ 2) ∧ 1 < 3) ∧
    (handleDeath 10 ⟨100, 100, true, 3, 0⟩ initGrid [(100, 100)]).1.lives = 2 ∧
    (handleDeath 10 ⟨100, 100, true, 3, 0⟩ initGrid [(100, 100)]).2.2.1 = [] := by
  have hov : ((100 : ℚ) - hunterFoe.x) ^ 2 + ((100 : ℚ) - hunterFoe.y) ^ 2
      < (hunterFoe.radius + PLAYER_RADIUS) ^ 2 := by
    norm_num [hunterFoe, PLAYER_RADIUS]
  have h := claim_C7 10 0 ⟨100, 100, true, 3, 0⟩ initGrid [(100, 100)] hunterFoe
    (by norm_num) (by norm_num) rfl hov
  obtain ⟨-, h2, -⟩ := h
  obtain ⟨hl, -, -, htr, -⟩ := h2 (by norm_num)
  exact ⟨⟨by norm_num, by norm_num, rfl, hov, by norm_num⟩, hl, htr⟩

/-- CLAIM C9 — the match countdown, once 0, stays 0 under every further
sequence of timer steps (the `update` fragment only decrements a positive
timer); `isRageMode` is then true on every tick; and with the rage flag set
the computed effective speed of every hostile is exactly double the speed
computed with no match rage and no global rage, for any slow/enrage state. -/
theorem claim_C9 (dts : List ℚ) (e : Enemy) (slowed grage : Bool) :
    List.foldl (fun t dt => timerStep dt t) 0 dts = 0 ∧
    isRageMode (List.foldl (fun t dt => timerStep dt t) 0 dts) = true ∧
    effectiveSpeed e slowed (isRageMode 0) grage
      = 2 * effectiveSpeed e slowed false false := by
  have hz : ∀ l : List ℚ, List.foldl (fun t dt => timerStep dt t) 0 l = 0 := by
    intro l
    induction l with
    | nil => rfl
    | cons d l ih =>
      show List.foldl _ (timerStep d 0) l = 0
      rw [show timerStep d 0 = 0 from by simp [timerStep]]
      exact ih
  refine ⟨hz dts, by rw [hz dts]; rfl, ?_⟩
  have hr : isRageMode 0 = true := rfl
  rw [hr]
  simp only [effectiveSpeed, Bool.true_or, Bool.or_self, if_true, if_false]
  cases slowed <;> rcases he : e.isEnraged <;> simp [he] <;> ring

/-- Witness for C2 at the concrete endpoints `(0, 0)` and `(3, 2)`. -/
theorem claim_C2_witness :
    getPointsOnLine (0, 0) (3, 2) ≠ [] ∧
    (getPointsOnLine (0, 0) (3, 2)).head? = some (0, 0) ∧
    (getPointsOnLine (0, 0) (3, 2)).getLast? = some (3, 2) ∧
    List.Chain' adj8 (getPointsOnLine (0, 0) (3, 2)) ∧
    (getPointsOnLine (0, 0) (3, 2)).length
      = (getPointsOnLine (3, 2) (0, 0)).length :=
  claim_C2 (0, 0) (3, 2)

/-- Witness for C3 at the concrete one-Open-cell capture state `stW8`. -/
theorem claim_C3_witness :
    (stW8.grid 0 = STATE_CLEARED → (captureArea 1 0 stW8).grid 0 = STATE_CLEARED) ∧
    totalClearedOf stW8.grid ≤ totalClearedOf (captureArea 1 0 stW8).grid :=
  ⟨(claim_C3 1 0 stW8).1 0, (claim_C3 1 0 stW8).2⟩

/-- A zero-capture state (fully Claimed grid) used as the C10 witness input. -/
def stW10 : CapState :=
  { grid := gridAllCleared, score := 7, combo := 2, comboTimer := 1,
    enemies := [], powerUps := [], lives := 1, effects := effects0, won := false }

/-- Witness for C10 at the concrete zero-capture state `stW10`. -/
theorem claim_C10_witness :
    capturedCountOf stW10.grid
      (getBossReachableArea stW10.grid (qixSeeds stW10.enemies)) = 0 ∧
    (captureArea 1 0 stW10).grid 0 ≠ STATE_TRAIL ∧
    (captureArea 1 0 stW10).score = stW10.score ∧
    (captureArea 1 0 stW10).combo = stW10.combo := by
  have h0 : capturedCountOf stW10.grid
      (getBossReachableArea stW10.grid (qixSeeds stW10.enemies)) = 0 :=
    capturedCountOf_allCleared _
  exact ⟨h0, (claim_C10 1 0 stW10).1 0 (by decide),
    ((claim_C10 1 0 stW10).2 h0).1, ((claim_C10 1 0 stW10).2 h0).2.1⟩

/-- Witness for C9 at a concrete two-tick trace and a concrete hostile. -/
theorem claim_C9_witness :
    List.foldl (fun t dt => timerStep dt t) 0 [1, 2] = 0 ∧
    isRageMode (List.foldl (fun t dt => timerStep dt t) 0 [1, 2]) = true ∧
    effectiveSpeed hunterFoe false (isRageMode 0) false
      = 2 * effectiveSpeed hunterFoe false false false :=
  claim_C9 [1, 2] hunterFoe false false

end CanvasQix
